import Mathlib

/-!
# Stepper motor control: the motion engine of `stepper_control.h`

A shallow embedding of the `StepperControl` class of
`sample-data/arduino/stepper_control.h`.

Modelling conventions.

* `float` fields and the `double` intermediate results are exact rationals (`ℚ`): every
  statement below is about the code run with exact arithmetic.  A division by a zero
  speed (infinite in C) is `0` in `ℚ`; the statements that depend on a speed value carry
  the hypotheses that keep the divisor positive.
* `long` and `int` values are unbounded integers (signed overflow is undefined in C).
* `unsigned long` values are naturals below `2 ^ 32`; the elapsed-time subtraction of
  `run` is taken modulo `2 ^ 32`, and so is the conversion of a quotient to
  `unsigned long` (undefined in C when the quotient is out of range).
* `micros()` is the argument `now` of `run`.
* The pulse written to the step pin by `step` is counted in the field `pulses`; the level
  written to the direction pin is the field `clockwise`.
-/

namespace StepperControl

/-- Motor families (`enum MotorType`). -/
inductive MotorType where
  | MOTOR_28BYJ48
  | MOTOR_NEMA17
  | MOTOR_NEMA23
  deriving DecidableEq, Repr

/-- Step modes (`enum StepMode`). -/
inductive StepMode where
  | FULL_STEP
  | HALF_STEP
  | QUARTER_STEP
  | EIGHTH_STEP
  deriving DecidableEq, Repr

/-- The number of values of an `unsigned long` (32 bits). -/
def ULONG_MOD : Nat := 2 ^ 32

/-- The fields of `class StepperControl`, with `pulses` counting the pulses that `step`
has written to the step pin. -/
structure State where
  stepPin : Int
  dirPin : Int
  enablePin : Int
  motorType : MotorType
  stepMode : StepMode
  stepsPerRevolution : Int
  gearRatio : ℚ
  currentPosition : Int
  targetPosition : Int
  isEnabled : Bool
  isMoving : Bool
  maxSpeed : ℚ
  currentSpeed : ℚ
  acceleration : ℚ
  deceleration : ℚ
  lastStepTime : Nat
  stepInterval : Nat
  clockwise : Bool
  pulses : Nat
  deriving DecidableEq

/-- The conversion `(long) x` of a floating value: truncation toward zero. -/
def toLong (x : ℚ) : Int := x.num.tdiv x.den

/-- The conversion `(unsigned long) x` of a floating value: truncation toward zero,
reduced modulo `2 ^ 32`. -/
def toULong (x : ℚ) : Nat := (toLong x % (ULONG_MOD : Int)).toNat

/-- The Arduino macro `abs(x)`, that is `((x) > 0 ? (x) : -(x))`. -/
def absLong (x : Int) : Int := if x > 0 then x else -x

/-- The constructor `StepperControl(stepPin, dirPin, enablePin)`.  It leaves `motorType`,
`stepMode` and `stepsPerRevolution` uninitialised; their values are the last three
arguments. -/
def construct (stepPin dirPin enablePin : Int) (motorType : MotorType) (stepMode : StepMode)
    (stepsPerRevolution : Int) : State :=
  { stepPin := stepPin
    dirPin := dirPin
    enablePin := enablePin
    motorType := motorType
    stepMode := stepMode
    stepsPerRevolution := stepsPerRevolution
    gearRatio := 1
    currentPosition := 0
    targetPosition := 0
    isEnabled := false
    isMoving := false
    maxSpeed := 1000
    currentSpeed := 0
    acceleration := 500
    deceleration := 500
    lastStepTime := 0
    stepInterval := 1000
    clockwise := true
    pulses := 0 }

/-- The private `getStepsPerRevolution()`. -/
def getStepsPerRevolution (s : State) : Int :=
  let baseSteps : Int :=
    match s.motorType with
    | .MOTOR_28BYJ48 => 2048
    | .MOTOR_NEMA17 => 200
    | .MOTOR_NEMA23 => 200
  match s.stepMode with
  | .FULL_STEP => baseSteps
  | .HALF_STEP => baseSteps * 2
  | .QUARTER_STEP => baseSteps * 4
  | .EIGHTH_STEP => baseSteps * 8

/-- The method `enable()`. -/
def enable (s : State) : State := { s with isEnabled := true }

/-- The method `disable()`. -/
def disable (s : State) : State :=
  { s with isEnabled := false, isMoving := false, currentSpeed := 0 }

/-- The method `begin(type, mode)`. -/
def begin (type : MotorType) (mode : StepMode) (s : State) : State :=
  let s1 := { s with motorType := type, stepMode := mode }
  enable { s1 with stepsPerRevolution := getStepsPerRevolution s1 }

/-- The method `setMotorType(type)`. -/
def setMotorType (type : MotorType) (s : State) : State :=
  let s1 := { s with motorType := type }
  { s1 with stepsPerRevolution := getStepsPerRevolution s1 }

/-- The method `setStepMode(mode)`. -/
def setStepMode (mode : StepMode) (s : State) : State :=
  let s1 := { s with stepMode := mode }
  { s1 with stepsPerRevolution := getStepsPerRevolution s1 }

/-- The method `setGearRatio(ratio)`. -/
def setGearRatio (ratio : ℚ) (s : State) : State := { s with gearRatio := ratio }

/-- The method `setMaxSpeed(speed)`. -/
def setMaxSpeed (speed : ℚ) (s : State) : State := { s with maxSpeed := speed }

/-- The method `setAcceleration(accel)`. -/
def setAcceleration (accel : ℚ) (s : State) : State := { s with acceleration := accel }

/-- The method `setDeceleration(decel)`. -/
def setDeceleration (decel : ℚ) (s : State) : State := { s with deceleration := decel }

/-- The method `moveTo(position)`. -/
def moveTo (position : Int) (s : State) : State :=
  { s with targetPosition := position, isMoving := true }

/-- The method `moveRelative(steps)`. -/
def moveRelative (steps : Int) (s : State) : State :=
  { s with targetPosition := s.currentPosition + steps, isMoving := true }

/-- The method `rotate(degrees)`. -/
def rotate (degrees : ℚ) (s : State) : State :=
  let steps : Int := toLong (degrees * (s.stepsPerRevolution : ℚ) * s.gearRatio / 360)
  moveRelative steps s

/-- The method `rotateRevolutions(revolutions)`. -/
def rotateRevolutions (revolutions : ℚ) (s : State) : State :=
  let steps : Int := toLong (revolutions * (s.stepsPerRevolution : ℚ) * s.gearRatio)
  moveRelative steps s

/-- The method `stop()`. -/
def stop (s : State) : State :=
  { s with targetPosition := s.currentPosition, isMoving := false, currentSpeed := 0 }

/-- The method `emergencyStop()`. -/
def emergencyStop (s : State) : State := disable (stop s)

/-- The method `setCurrentPosition(position)`. -/
def setCurrentPosition (position : Int) (s : State) : State :=
  { s with currentPosition := position }

/-- The method `getCurrentPosition()`. -/
def getCurrentPosition (s : State) : Int := s.currentPosition

/-- The method `getTargetPosition()`. -/
def getTargetPosition (s : State) : Int := s.targetPosition

/-- The method `getDistanceToGo()`. -/
def getDistanceToGo (s : State) : Int := s.targetPosition - s.currentPosition

/-- The method `isRunning()`. -/
def isRunning (s : State) : Bool := s.isMoving && (getDistanceToGo s != 0)

/-- The method `getCurrentSpeed()`. -/
def getCurrentSpeed (s : State) : ℚ := s.currentSpeed

/-- The braking distance `(long)(currentSpeed * currentSpeed / (2.0 * deceleration))`
computed at the head of `calculateSpeed`. -/
def stepsToDecelerate (s : State) : Int :=
  toLong (s.currentSpeed * s.currentSpeed / (2 * s.deceleration))

/-- The private `calculateSpeed()`. -/
def calculateSpeed (s : State) : State :=
  let distanceToGo := getDistanceToGo s
  let s1 : State :=
    if absLong distanceToGo ≤ stepsToDecelerate s then
      let newSpeed := s.currentSpeed - s.deceleration * ((s.stepInterval : ℚ) / 1000000)
      { s with currentSpeed := max newSpeed 50 }
    else
      let newSpeed := s.currentSpeed + s.acceleration * ((s.stepInterval : ℚ) / 1000000)
      { s with currentSpeed := min newSpeed s.maxSpeed }
  { s1 with stepInterval := toULong (1000000 / s1.currentSpeed) }

/-- The private `setDirection(clockwise)`. -/
def setDirection (clockwise : Bool) (s : State) : State := { s with clockwise := clockwise }

/-- The private `step()`; the pulse on the step pin increments `pulses`. -/
def step (s : State) : State :=
  let distanceToGo := getDistanceToGo s
  let s1 : State :=
    if distanceToGo > 0 then
      let s0 := setDirection true s
      { s0 with currentPosition := s0.currentPosition + 1 }
    else
      let s0 := setDirection false s
      { s0 with currentPosition := s0.currentPosition - 1 }
  { s1 with pulses := s1.pulses + 1 }

/-- The method `run()`, with the reading `now` of `micros()`.  The `unsigned long` difference
`currentTime - lastStepTime` is `(currentTime + 2 ^ 32 - lastStepTime) % 2 ^ 32`, both values
being below `2 ^ 32`. -/
def run (now : Nat) (s : State) : State :=
  if !s.isEnabled || !s.isMoving then s
  else
    let distanceToGo := getDistanceToGo s
    if distanceToGo = 0 then
      { s with isMoving := false, currentSpeed := 0 }
    else
      let s1 := calculateSpeed s
      let currentTime := now
      if (currentTime + ULONG_MOD - s1.lastStepTime) % ULONG_MOD ≥ s1.stepInterval then
        { step s1 with lastStepTime := currentTime }
      else s1

/-- The method `setHome()`. -/
def setHome (s : State) : State := setCurrentPosition 0 s

/-- The method `goHome()`. -/
def goHome (s : State) : State := moveTo 0 s

/-- The controller of the usage example at the end of the source, `StepperControl motor(2, 3, 4)`,
as constructed, with the geometry of a full-step NEMA 17. -/
def fresh : State := construct 2 3 4 .MOTOR_NEMA17 .FULL_STEP 200

/-- The state after polling `run` `n` times, the clock reading `t` before the first poll and
advancing by `dt` microseconds (modulo `2 ^ 32`) from each poll to the next. -/
def pollN (dt : Nat) : Nat → Nat → State → State
  | 0, _, s => s
  | n + 1, t, s => pollN dt n ((t + dt) % ULONG_MOD) (run ((t + dt) % ULONG_MOD) s)

/-- The state after polling `run` at each clock reading of a list, in order. -/
def runAll : List Nat → State → State
  | [], s => s
  | now :: rest, s => runAll rest (run now s)

/-- Rounding toward zero, in the words of the specification: the floor of a non-negative
value, the ceiling of a negative one. -/
def truncTowardZero (x : ℚ) : Int := if 0 ≤ x then ⌊x⌋ else ⌈x⌉

/-- The controller `fresh`, enabled, after `moveRelative(1)` and one poll late enough
(5 seconds) to emit the single step of the move. -/
def arrived : State := run 5000000 (moveRelative 1 (enable fresh))

/-- The controller `fresh` with `setMaxSpeed(40)`, enabled, after `moveRelative(1)` and three
polls at 10, 20 and 30 microseconds. -/
def slowBraking : State :=
  run 30 (run 20 (run 10 (moveRelative 1 (enable (setMaxSpeed 40 fresh)))))

/-- The scenario of the specification: the controller `fresh` (position 0, speed 0,
`maxSpeed` 1000, acceleration and deceleration 500), enabled, after `moveRelative(400)`. -/
def scenario : State := moveRelative 400 (enable fresh)

/-- The time since the last step as `run` computes it at the clock reading `t`: the
`unsigned long` difference `t - lastStepTime`. -/
def elapsed (t : Nat) (s : State) : Nat := (t + ULONG_MOD - s.lastStepTime) % ULONG_MOD

/-- The least speed that the speed law can leave during a move that starts in state `s`: the
least of the speed of the first acceleration poll, `maxSpeed` and the floor of 50. -/
def lowSpeed (s : State) : ℚ :=
  min (min (s.currentSpeed + s.acceleration * ((s.stepInterval : ℚ) / 1000000)) s.maxSpeed) 50

/-- The integer `x` lies between 0 and `d`, on the side of `d`. -/
def Between (d x : Int) : Prop := (0 ≤ x ∧ x ≤ d) ∨ (d ≤ x ∧ x ≤ 0)

/-- What every poll of a move in progress keeps: the controller is enabled and moving, and
the speed law cannot leave a speed below `low`. -/
structure MoveInv (low : ℚ) (s : State) : Prop where
  en : s.isEnabled = true
  mv : s.isMoving = true
  acc : 0 ≤ s.acceleration
  lowMax : low ≤ s.maxSpeed
  lowFloor : low ≤ 50
  speed : low ≤ s.currentSpeed + s.acceleration * ((s.stepInterval : ℚ) / 1000000)
  last : s.lastStepTime < ULONG_MOD

/-- The number of polls left, at most, before a move with step intervals of at most `B`
arrives: `B + 1` polls for each step to go, less the time already elapsed. -/
def pollRank (B t : Nat) (s : State) : Nat :=
  (getDistanceToGo s).natAbs * (B + 1) + (if elapsed t s ≤ B then B - elapsed t s else B + 1)

/-- The controller `fresh` with `setMaxSpeed(1/3000)`, enabled, after `moveRelative(1)`. -/
def stalled : State := moveRelative 1 (enable (setMaxSpeed (1 / 3000) fresh))

/-- The scenario after a first poll at the clock reading `2 ^ 32 - 5`, which emits a step:
`lastStepTime` is 5 microseconds short of the wrap of the clock. -/
def nearWrap : State := run 4294967291 scenario

/-- The speed law in the words of the specification: the new speed and the new step
interval.  The braking distance is `currentSpeed² / (2 · deceleration)`, compared over the
rationals with the absolute distance to go; the time delta is the stored step interval over
`1e6`; the floor speed is 50; the interval is `1e6 / newSpeed` rounded toward zero. -/
def specSpeedLaw (s : State) : ℚ × Int :=
  let brakingDistance : ℚ := s.currentSpeed ^ 2 / (2 * s.deceleration)
  let delta : ℚ := (s.stepInterval : ℚ) / 1000000
  let newSpeed : ℚ :=
    if ((|getDistanceToGo s| : Int) : ℚ) ≤ brakingDistance then
      max (s.currentSpeed - s.deceleration * delta) 50
    else
      min (s.currentSpeed + s.acceleration * delta) s.maxSpeed
  (newSpeed, truncTowardZero (1000000 / newSpeed))

/-- The states reachable from construction through the configuration setters called with
positive values, `enable`, `disable`, the move commands, `stop` and `run`. -/
inductive Reachable : State → Prop
  | byConstruct (stepPin dirPin enablePin : Int) (motorType : MotorType) (stepMode : StepMode)
      (stepsPerRevolution : Int) :
      Reachable (construct stepPin dirPin enablePin motorType stepMode stepsPerRevolution)
  | bySetMaxSpeed (v : ℚ) (s : State) : 0 < v → Reachable s → Reachable (setMaxSpeed v s)
  | bySetAcceleration (v : ℚ) (s : State) :
      0 < v → Reachable s → Reachable (setAcceleration v s)
  | bySetDeceleration (v : ℚ) (s : State) :
      0 < v → Reachable s → Reachable (setDeceleration v s)
  | byEnable (s : State) : Reachable s → Reachable (enable s)
  | byDisable (s : State) : Reachable s → Reachable (disable s)
  | byMoveTo (position : Int) (s : State) : Reachable s → Reachable (moveTo position s)
  | byMoveRelative (steps : Int) (s : State) : Reachable s → Reachable (moveRelative steps s)
  | byRotate (degrees : ℚ) (s : State) : Reachable s → Reachable (rotate degrees s)
  | byRotateRevolutions (revolutions : ℚ) (s : State) :
      Reachable s → Reachable (rotateRevolutions revolutions s)
  | byStop (s : State) : Reachable s → Reachable (stop s)
  | byRun (now : Nat) (s : State) : Reachable s → Reachable (run now s)

/-- The states reachable from the state `s0` through `enable`, `disable`, the move commands,
`stop` and `run`, the configuration staying as it is in `s0`. -/
inductive ReachableFrom (s0 : State) : State → Prop
  | start : ReachableFrom s0 s0
  | byEnable (s : State) : ReachableFrom s0 s → ReachableFrom s0 (enable s)
  | byDisable (s : State) : ReachableFrom s0 s → ReachableFrom s0 (disable s)
  | byMoveTo (position : Int) (s : State) :
      ReachableFrom s0 s → ReachableFrom s0 (moveTo position s)
  | byMoveRelative (steps : Int) (s : State) :
      ReachableFrom s0 s → ReachableFrom s0 (moveRelative steps s)
  | byRotate (degrees : ℚ) (s : State) :
      ReachableFrom s0 s → ReachableFrom s0 (rotate degrees s)
  | byRotateRevolutions (revolutions : ℚ) (s : State) :
      ReachableFrom s0 s → ReachableFrom s0 (rotateRevolutions revolutions s)
  | byStop (s : State) : ReachableFrom s0 s → ReachableFrom s0 (stop s)
  | byRun (now : Nat) (s : State) : ReachableFrom s0 s → ReachableFrom s0 (run now s)

/-- The scenario after two polls, at speed 1000, with `setMaxSpeed(100)` called during the
move. -/
def loweredMax : State := setMaxSpeed 100 (run 20 (run 10 scenario))

/-- The shortest step interval that a reachable state can hold under the configuration
`maxSpeed = m`: the 1000 of construction, or the interval of the highest speed, which is
`m` or the floor of 50. -/
def minInterval (m : ℚ) : Nat := min 1000 ⌊1000000 / max m 50⌋.toNat

/-- The least speed that the acceleration branch can leave under the configuration
`maxSpeed = m`, `acceleration = a`: one update from rest over the shortest interval, or
`m`. -/
def guardSpeed (m a : ℚ) : ℚ := min (a * ((minInterval m : ℚ) / 1000000)) m

/-- What every state reachable under the fixed configuration `m`, `a`, `d` keeps. -/
structure GuardInv (m a d : ℚ) (s : State) : Prop where
  maxSpeed : s.maxSpeed = m
  acceleration : s.acceleration = a
  deceleration : s.deceleration = d
  speedNonneg : 0 ≤ s.currentSpeed
  speedLe : s.currentSpeed ≤ max m 50
  interval : minInterval m ≤ s.stepInterval

/-- The controller `fresh` with `setAcceleration(1953125 / 8388608)` (about 0.2328), enabled,
after `moveRelative(1)`. -/
def overflowing : State :=
  moveRelative 1 (enable (setAcceleration (1953125 / 8388608) fresh))

/-! ## The three paths of `run` -/

theorem run_of_idle (now : Nat) (s : State) (h : s.isEnabled = false ∨ s.isMoving = false) :
    run now s = s := by
  rcases h with h | h <;> simp [run, h]

theorem run_of_arrived (now : Nat) (s : State) (hen : s.isEnabled = true)
    (hmv : s.isMoving = true) (hd : getDistanceToGo s = 0) :
    run now s = { s with isMoving := false, currentSpeed := 0 } := by
  simp [run, hen, hmv, hd]

theorem run_of_active (now : Nat) (s : State) (hen : s.isEnabled = true)
    (hmv : s.isMoving = true) (hd : getDistanceToGo s ≠ 0) :
    run now s =
      if (now + ULONG_MOD - (calculateSpeed s).lastStepTime) % ULONG_MOD
          ≥ (calculateSpeed s).stepInterval then
        { step (calculateSpeed s) with lastStepTime := now }
      else calculateSpeed s := by
  simp [run, hen, hmv, hd]

/-! ## What `calculateSpeed` and `step` leave alone -/

@[simp] theorem calculateSpeed_currentPosition (s : State) :
    (calculateSpeed s).currentPosition = s.currentPosition := by
  unfold calculateSpeed; dsimp only; split <;> rfl

@[simp] theorem calculateSpeed_targetPosition (s : State) :
    (calculateSpeed s).targetPosition = s.targetPosition := by
  unfold calculateSpeed; dsimp only; split <;> rfl

@[simp] theorem calculateSpeed_pulses (s : State) : (calculateSpeed s).pulses = s.pulses := by
  unfold calculateSpeed; dsimp only; split <;> rfl

@[simp] theorem calculateSpeed_lastStepTime (s : State) :
    (calculateSpeed s).lastStepTime = s.lastStepTime := by
  unfold calculateSpeed; dsimp only; split <;> rfl

@[simp] theorem calculateSpeed_isEnabled (s : State) :
    (calculateSpeed s).isEnabled = s.isEnabled := by
  unfold calculateSpeed; dsimp only; split <;> rfl

@[simp] theorem calculateSpeed_isMoving (s : State) :
    (calculateSpeed s).isMoving = s.isMoving := by
  unfold calculateSpeed; dsimp only; split <;> rfl

@[simp] theorem calculateSpeed_maxSpeed (s : State) :
    (calculateSpeed s).maxSpeed = s.maxSpeed := by
  unfold calculateSpeed; dsimp only; split <;> rfl

@[simp] theorem calculateSpeed_acceleration (s : State) :
    (calculateSpeed s).acceleration = s.acceleration := by
  unfold calculateSpeed; dsimp only; split <;> rfl

@[simp] theorem calculateSpeed_deceleration (s : State) :
    (calculateSpeed s).deceleration = s.deceleration := by
  unfold calculateSpeed; dsimp only; split <;> rfl

@[simp] theorem getDistanceToGo_calculateSpeed (s : State) :
    getDistanceToGo (calculateSpeed s) = getDistanceToGo s := by
  simp [getDistanceToGo]

@[simp] theorem step_targetPosition (s : State) : (step s).targetPosition = s.targetPosition := by
  unfold step setDirection; dsimp only; split <;> rfl

@[simp] theorem step_pulses (s : State) : (step s).pulses = s.pulses + 1 := by
  unfold step setDirection; dsimp only; split <;> rfl

@[simp] theorem step_currentSpeed (s : State) : (step s).currentSpeed = s.currentSpeed := by
  unfold step setDirection; dsimp only; split <;> rfl

@[simp] theorem step_stepInterval (s : State) : (step s).stepInterval = s.stepInterval := by
  unfold step setDirection; dsimp only; split <;> rfl

@[simp] theorem step_isEnabled (s : State) : (step s).isEnabled = s.isEnabled := by
  unfold step setDirection; dsimp only; split <;> rfl

@[simp] theorem step_isMoving (s : State) : (step s).isMoving = s.isMoving := by
  unfold step setDirection; dsimp only; split <;> rfl

@[simp] theorem step_maxSpeed (s : State) : (step s).maxSpeed = s.maxSpeed := by
  unfold step setDirection; dsimp only; split <;> rfl

@[simp] theorem step_acceleration (s : State) : (step s).acceleration = s.acceleration := by
  unfold step setDirection; dsimp only; split <;> rfl

@[simp] theorem step_deceleration (s : State) : (step s).deceleration = s.deceleration := by
  unfold step setDirection; dsimp only; split <;> rfl

theorem step_currentPosition_pos (s : State) (h : 0 < getDistanceToGo s) :
    (step s).currentPosition = s.currentPosition + 1 ∧ (step s).clockwise = true := by
  simp [step, setDirection, h]

theorem step_currentPosition_neg (s : State) (h : ¬ 0 < getDistanceToGo s) :
    (step s).currentPosition = s.currentPosition - 1 ∧ (step s).clockwise = false := by
  simp [step, setDirection, h]

theorem run_targetPosition (now : Nat) (s : State) :
    (run now s).targetPosition = s.targetPosition := by
  unfold run
  split
  · rfl
  · dsimp only
    split
    · rfl
    · split <;> simp

/-- The speed after a poll that executes the speed law is the speed `calculateSpeed`
computes: `step` does not touch it. -/
theorem run_currentSpeed_of_active (now : Nat) (s : State) (hen : s.isEnabled = true)
    (hmv : s.isMoving = true) (hd : getDistanceToGo s ≠ 0) :
    (run now s).currentSpeed = (calculateSpeed s).currentSpeed := by
  rw [run_of_active now s hen hmv hd]
  split <;> simp

/-! ## Truncation toward zero -/

theorem toLong_eq_truncTowardZero (x : ℚ) : toLong x = truncTowardZero x := by
  unfold toLong truncTowardZero
  have hden : (0 : Int) ≤ (x.den : Int) := Int.ofNat_nonneg _
  split
  · rename_i hx
    rw [Rat.floor_def]
    exact Int.tdiv_eq_ediv (Rat.num_nonneg.mpr hx) hden
  · rename_i hx
    have hneg : 0 ≤ -x := by linarith [not_le.mp hx]
    have hnum : 0 ≤ -x.num := by
      have := Rat.num_nonneg.mpr hneg
      simpa using this
    have h1 : ⌈x⌉ = -⌊-x⌋ := by rw [Int.floor_neg, neg_neg]
    rw [h1, Rat.floor_def]
    simp only [Rat.neg_num, Rat.neg_den]
    rw [← Int.tdiv_eq_ediv hnum hden, Int.neg_tdiv, neg_neg]

/-! ## Stopping and idle polls -/

theorem runAll_of_not_moving (clocks : List Nat) (s : State) (h : s.isMoving = false) :
    runAll clocks s = s := by
  induction clocks with
  | nil => rfl
  | cons now rest ih => simp only [runAll]; rw [run_of_idle now s (Or.inr h)]; exact ih

/-- C3. `stop()` sets the target to the current position, clears `isMoving` and zeroes the
speed, so that `isRunning()` is false at once; and whatever the clock readings of the polls
of `run()` that follow, the position does not change and no pulse is emitted. -/
theorem stop_then_polls_hold_position (s : State) (clocks : List Nat) :
    (stop s).targetPosition = s.currentPosition ∧
    (stop s).currentPosition = s.currentPosition ∧
    (stop s).isMoving = false ∧
    (stop s).currentSpeed = 0 ∧
    isRunning (stop s) = false ∧
    (runAll clocks (stop s)).currentPosition = s.currentPosition ∧
    (runAll clocks (stop s)).pulses = s.pulses ∧
    isRunning (runAll clocks (stop s)) = false := by
  have h : runAll clocks (stop s) = stop s := runAll_of_not_moving clocks (stop s) rfl
  rw [h]
  simp [stop, isRunning]

/-- C4, as the claim states it, fails: after the single step of `moveRelative(1)` the
controller is not running, yet the next poll changes the speed from 1/2 to 0. -/
theorem not_running_poll_changes_speed :
    isRunning arrived = false ∧
    arrived.currentSpeed = 1 / 2 ∧
    (run 0 arrived).currentSpeed = 0 ∧
    (run 0 arrived).currentSpeed ≠ arrived.currentSpeed := by
  decide!

/-- C4, amended. When `isRunning()` is false, `run()` leaves the position unchanged and emits
no pulse; it leaves the speed unchanged when the controller is disabled or `isMoving` is
false, and sets it to 0 when the controller is enabled with `isMoving` true (at distance
zero). -/
theorem run_when_not_running (now : Nat) (s : State) (h : isRunning s = false) :
    (run now s).currentPosition = s.currentPosition ∧
    (run now s).pulses = s.pulses ∧
    ((s.isEnabled = false ∨ s.isMoving = false) →
      (run now s).currentSpeed = s.currentSpeed) ∧
    ((s.isEnabled = true ∧ s.isMoving = true) → (run now s).currentSpeed = 0) := by
  by_cases hidle : s.isEnabled = false ∨ s.isMoving = false
  · rw [run_of_idle now s hidle]
    refine ⟨rfl, rfl, fun _ => rfl, ?_⟩
    rintro ⟨h1, h2⟩
    rcases hidle with h3 | h3 <;> simp_all
  · have hen : s.isEnabled = true := by
      cases hE : s.isEnabled
      · exact absurd (Or.inl hE) hidle
      · rfl
    have hmv : s.isMoving = true := by
      cases hM : s.isMoving
      · exact absurd (Or.inr hM) hidle
      · rfl
    have hd : getDistanceToGo s = 0 := by
      simpa [isRunning, hmv] using h
    rw [run_of_arrived now s hen hmv hd]
    exact ⟨rfl, rfl, fun hc => absurd hc hidle, fun _ => rfl⟩

/-- C4, amended, at the state `arrived` (enabled, `isMoving` true, distance zero) and the clock reading 0. -/
theorem run_when_not_running_witness :
    isRunning arrived = false ∧
    ((run 0 arrived).currentPosition = arrived.currentPosition ∧
      (run 0 arrived).pulses = arrived.pulses ∧
      ((arrived.isEnabled = false ∨ arrived.isMoving = false) →
        (run 0 arrived).currentSpeed = arrived.currentSpeed) ∧
      ((arrived.isEnabled = true ∧ arrived.isMoving = true) →
        (run 0 arrived).currentSpeed = 0)) :=
  ⟨by decide!, run_when_not_running 0 arrived (by decide!)⟩

/-! ## One step per emitting poll -/

/-- C5. A poll of `run()` that emits a step (the pulse count changes) emits exactly one
pulse; when the distance to go was positive before the poll the position increases by 1 and
the direction is clockwise, when it was negative the position decreases by 1 and the
direction is counter-clockwise; in both cases the absolute distance decreases by exactly 1.
And no poll changes `targetPosition`. -/
theorem run_step_moves_toward_target :
    (∀ (now : Nat) (s : State), (run now s).targetPosition = s.targetPosition) ∧
    (∀ (now : Nat) (s : State), (run now s).pulses ≠ s.pulses →
      (run now s).pulses = s.pulses + 1 ∧
      (0 < getDistanceToGo s →
        (run now s).currentPosition = s.currentPosition + 1 ∧
        (run now s).clockwise = true) ∧
      (getDistanceToGo s < 0 →
        (run now s).currentPosition = s.currentPosition - 1 ∧
        (run now s).clockwise = false) ∧
      (getDistanceToGo s ≠ 0) ∧
      |getDistanceToGo (run now s)| = |getDistanceToGo s| - 1) := by
  refine ⟨run_targetPosition, ?_⟩
  intro now s hp
  by_cases hidle : s.isEnabled = false ∨ s.isMoving = false
  · rw [run_of_idle now s hidle] at hp; exact absurd rfl hp
  have hen : s.isEnabled = true := by
    cases hE : s.isEnabled
    · exact absurd (Or.inl hE) hidle
    · rfl
  have hmv : s.isMoving = true := by
    cases hM : s.isMoving
    · exact absurd (Or.inr hM) hidle
    · rfl
  by_cases hd : getDistanceToGo s = 0
  · rw [run_of_arrived now s hen hmv hd] at hp; exact absurd rfl hp
  have hrun := run_of_active now s hen hmv hd
  by_cases hdue : (now + ULONG_MOD - (calculateSpeed s).lastStepTime) % ULONG_MOD
      ≥ (calculateSpeed s).stepInterval
  · rw [if_pos hdue] at hrun
    have hpos : (run now s).currentPosition = (step (calculateSpeed s)).currentPosition := by
      rw [hrun]
    have hcw : (run now s).clockwise = (step (calculateSpeed s)).clockwise := by rw [hrun]
    have hpl : (run now s).pulses = s.pulses + 1 := by rw [hrun]; simp
    have htg : (run now s).targetPosition = s.targetPosition := run_targetPosition now s
    refine ⟨hpl, ?_, ?_, hd, ?_⟩
    · intro h
      have := step_currentPosition_pos (calculateSpeed s) (by simpa using h)
      rw [hpos, hcw]; simpa using this
    · intro h
      have := step_currentPosition_neg (calculateSpeed s) (by simpa using not_lt.mpr h.le)
      rw [hpos, hcw]; simpa using this
    · rcases lt_or_gt_of_ne hd with h | h
      · have := (step_currentPosition_neg (calculateSpeed s)
          (by simpa using not_lt.mpr h.le)).1
        have hq : getDistanceToGo (run now s) = getDistanceToGo s + 1 := by
          simp only [getDistanceToGo, htg, hpos, this, calculateSpeed_currentPosition]; ring
        rw [hq, abs_of_neg h, abs_of_nonpos (by omega)]; ring
      · have := (step_currentPosition_pos (calculateSpeed s) (by simpa using h)).1
        have hq : getDistanceToGo (run now s) = getDistanceToGo s - 1 := by
          simp only [getDistanceToGo, htg, hpos, this, calculateSpeed_currentPosition]; ring
        rw [hq, abs_of_pos h, abs_of_nonneg (by omega)]
  · rw [if_neg hdue] at hrun
    rw [hrun] at hp
    exact absurd (calculateSpeed_pulses s) hp

/-- C5 at the first poll, five seconds in, of `moveRelative(1)` on the enabled controller `fresh`: the poll emits the step and the position increases by 1. -/
theorem run_step_moves_toward_target_witness :
    (run 5000000 (moveRelative 1 (enable fresh))).pulses ≠ (moveRelative 1 (enable fresh)).pulses ∧
    (run 5000000 (moveRelative 1 (enable fresh))).currentPosition
      = (moveRelative 1 (enable fresh)).currentPosition + 1 :=
  ⟨by decide!,
   ((run_step_moves_toward_target.2 5000000 (moveRelative 1 (enable fresh)) (by decide!)).2.1
      (by decide!)).1⟩

/-! ## `isMoving` and the distance to go -/

/-- C7, as the claim states it, fails on both counts: `moveTo(0)` on the constructed
controller gives a state with `isMoving` true at distance zero; and the poll whose step
brings the distance of `moveRelative(1)` to zero leaves `isMoving` true and the speed at
1/2. -/
theorem isMoving_at_zero_distance :
    (moveTo 0 fresh).isMoving = true ∧ getDistanceToGo (moveTo 0 fresh) = 0 ∧
    getDistanceToGo (moveRelative 1 (enable fresh)) = 1 ∧
    arrived.pulses = (moveRelative 1 (enable fresh)).pulses + 1 ∧
    getDistanceToGo arrived = 0 ∧
    arrived.isMoving = true ∧
    arrived.currentSpeed = 1 / 2 := by
  decide!

/-- C7, amended. `isRunning()` holds only with `isMoving` true and a non-zero distance.  The
poll of `run()` whose step brings the distance to zero leaves `isMoving` true, with
`isRunning()` false; it is the next poll, whatever its clock reading, that clears `isMoving`
and sets the speed to 0. -/
theorem isMoving_cleared_on_next_poll (now next : Nat) (s : State)
    (hstep : (run now s).pulses ≠ s.pulses) (hzero : getDistanceToGo (run now s) = 0) :
    (isRunning s = true ∧ s.isMoving = true ∧ getDistanceToGo s ≠ 0) ∧
    (run now s).isMoving = true ∧
    isRunning (run now s) = false ∧
    (run next (run now s)).isMoving = false ∧
    (run next (run now s)).currentSpeed = 0 ∧
    (run next (run now s)).currentPosition = (run now s).currentPosition := by
  by_cases hidle : s.isEnabled = false ∨ s.isMoving = false
  · rw [run_of_idle now s hidle] at hstep; exact absurd rfl hstep
  have hen : s.isEnabled = true := by
    cases hE : s.isEnabled
    · exact absurd (Or.inl hE) hidle
    · rfl
  have hmv : s.isMoving = true := by
    cases hM : s.isMoving
    · exact absurd (Or.inr hM) hidle
    · rfl
  by_cases hd : getDistanceToGo s = 0
  · rw [run_of_arrived now s hen hmv hd] at hstep; exact absurd rfl hstep
  have hen1 : (run now s).isEnabled = true := by
    rw [run_of_active now s hen hmv hd]; split <;> simp [hen]
  have hmv1 : (run now s).isMoving = true := by
    rw [run_of_active now s hen hmv hd]; split <;> simp [hmv]
  have hnext := run_of_arrived next (run now s) hen1 hmv1 hzero
  refine ⟨⟨by simp [isRunning, hmv, hd], hmv, hd⟩, hmv1, by simp [isRunning, hzero], ?_, ?_, ?_⟩
  · rw [hnext]
  · rw [hnext]
  · rw [hnext]

/-- C7, amended, at the poll that emits the single step of `moveRelative(1)` on the enabled controller `fresh`, followed by a poll at the clock reading 7. -/
theorem isMoving_cleared_on_next_poll_witness :
    ((run 5000000 (moveRelative 1 (enable fresh))).pulses ≠ (moveRelative 1 (enable fresh)).pulses ∧
      getDistanceToGo (run 5000000 (moveRelative 1 (enable fresh))) = 0) ∧
    (run 5000000 (moveRelative 1 (enable fresh))).isMoving = true ∧
    (run 7 (run 5000000 (moveRelative 1 (enable fresh)))).isMoving = false :=
  ⟨⟨by decide!, by decide!⟩,
   (isMoving_cleared_on_next_poll 5000000 7 (moveRelative 1 (enable fresh))
      (by decide!) (by decide!)).2.1,
   (isMoving_cleared_on_next_poll 5000000 7 (moveRelative 1 (enable fresh))
      (by decide!) (by decide!)).2.2.2.1⟩

/-- C8. On an enabled controller `moveTo(currentPosition)` sets `isMoving`, and one poll of
`run()`, whatever the clock reading, leaves `isMoving` false, the speed 0, `isRunning()`
false and the position unchanged, without a pulse. -/
theorem moveTo_current_is_one_poll_noop (now : Nat) (s : State) (hen : s.isEnabled = true) :
    (moveTo s.currentPosition s).isMoving = true ∧
    (run now (moveTo s.currentPosition s)).isMoving = false ∧
    (run now (moveTo s.currentPosition s)).currentSpeed = 0 ∧
    isRunning (run now (moveTo s.currentPosition s)) = false ∧
    (run now (moveTo s.currentPosition s)).currentPosition = s.currentPosition ∧
    (run now (moveTo s.currentPosition s)).pulses = s.pulses := by
  have h := run_of_arrived now (moveTo s.currentPosition s) (by simpa [moveTo] using hen) rfl
    (by simp [getDistanceToGo, moveTo])
  rw [h]
  simp [moveTo, isRunning]

/-- C8 at the enabled controller `fresh` and the clock reading 123. -/
theorem moveTo_current_is_one_poll_noop_witness :
    (enable fresh).isEnabled = true ∧
    ((moveTo (enable fresh).currentPosition (enable fresh)).isMoving = true ∧
    (run 123 (moveTo (enable fresh).currentPosition (enable fresh))).isMoving = false ∧
    (run 123 (moveTo (enable fresh).currentPosition (enable fresh))).currentSpeed = 0 ∧
    isRunning (run 123 (moveTo (enable fresh).currentPosition (enable fresh))) = false ∧
    (run 123 (moveTo (enable fresh).currentPosition (enable fresh))).currentPosition
      = (enable fresh).currentPosition ∧
    (run 123 (moveTo (enable fresh).currentPosition (enable fresh))).pulses
      = (enable fresh).pulses) :=
  ⟨rfl, moveTo_current_is_one_poll_noop 123 (enable fresh) rfl⟩

/-! ## Move commands -/

/-- C9. With exact arithmetic, `rotateRevolutions(n)` sets the target to the current position
plus `n * stepsPerRevolution * gearRatio` rounded toward zero, `rotate(degrees)` sets it to
the current position plus `degrees * stepsPerRevolution * gearRatio / 360` rounded toward
zero, and both set `isMoving`.  With 200 steps per revolution and gear ratio 1,
`rotateRevolutions(1)` raises the distance to go by exactly 200. -/
theorem rotate_commands_truncated_steps (s : State) (n degrees : ℚ) :
    (rotateRevolutions n s).targetPosition
      = s.currentPosition + truncTowardZero (n * (s.stepsPerRevolution : ℚ) * s.gearRatio) ∧
    (rotateRevolutions n s).isMoving = true ∧
    (rotate degrees s).targetPosition
      = s.currentPosition
        + truncTowardZero (degrees * (s.stepsPerRevolution : ℚ) * s.gearRatio / 360) ∧
    (rotate degrees s).isMoving = true ∧
    (s.stepsPerRevolution = 200 → s.gearRatio = 1 →
      getDistanceToGo (rotateRevolutions 1 s) = 200 ∧
      (getDistanceToGo s = 0 →
        getDistanceToGo (rotateRevolutions 1 s) = getDistanceToGo s + 200)) := by
  refine ⟨?_, rfl, ?_, rfl, ?_⟩
  · simp only [rotateRevolutions, moveRelative, toLong_eq_truncTowardZero]
  · simp only [rotate, moveRelative, toLong_eq_truncTowardZero]
  · intro h1 h2
    have ht : toLong ((1 : ℚ) * ((200 : Int) : ℚ) * 1) = 200 := by decide!
    have h200 : getDistanceToGo (rotateRevolutions 1 s) = 200 := by
      simp only [rotateRevolutions, moveRelative, getDistanceToGo, h1, h2, ht]
      ring
    exact ⟨h200, fun h0 => by rw [h200, h0]; rfl⟩

/-- C9 at the controller `fresh` (200 steps per revolution, gear ratio 1, at its target): `rotateRevolutions(1)` commands exactly 200 steps. -/
theorem rotate_commands_truncated_steps_witness :
    fresh.stepsPerRevolution = 200 ∧ fresh.gearRatio = 1 ∧ getDistanceToGo fresh = 0 ∧
    getDistanceToGo (rotateRevolutions 1 fresh) = 200 ∧
    getDistanceToGo (rotateRevolutions 1 fresh) = getDistanceToGo fresh + 200 :=
  ⟨rfl, rfl, rfl, ((rotate_commands_truncated_steps fresh 1 0).2.2.2.2 rfl rfl).1,
    ((rotate_commands_truncated_steps fresh 1 0).2.2.2.2 rfl rfl).2 rfl⟩

/-- C10. `moveRelative(delta)` gives exactly the state that `moveTo(currentPosition + delta)`
gives: the target is the current position plus `delta`, `isMoving` is true, and every other
field, the current speed among them, is unchanged. -/
theorem moveRelative_eq_moveTo (s : State) (delta : Int) :
    moveRelative delta s = moveTo (s.currentPosition + delta) s ∧
    (moveRelative delta s).targetPosition = s.currentPosition + delta ∧
    (moveRelative delta s).isMoving = true ∧
    (moveRelative delta s).currentPosition = s.currentPosition ∧
    (moveRelative delta s).currentSpeed = s.currentSpeed ∧
    (moveRelative delta s).isEnabled = s.isEnabled ∧
    (moveRelative delta s).stepInterval = s.stepInterval ∧
    (moveRelative delta s).lastStepTime = s.lastStepTime ∧
    (moveRelative delta s).clockwise = s.clockwise ∧
    (moveRelative delta s).maxSpeed = s.maxSpeed ∧
    (moveRelative delta s).acceleration = s.acceleration ∧
    (moveRelative delta s).deceleration = s.deceleration ∧
    (moveRelative delta s).pulses = s.pulses ∧
    (moveRelative delta s).stepsPerRevolution = s.stepsPerRevolution ∧
    (moveRelative delta s).gearRatio = s.gearRatio ∧
    (moveRelative delta s).motorType = s.motorType ∧
    (moveRelative delta s).stepMode = s.stepMode ∧
    (moveRelative delta s).stepPin = s.stepPin ∧
    (moveRelative delta s).dirPin = s.dirPin ∧
    (moveRelative delta s).enablePin = s.enablePin := by
  simp [moveRelative, moveTo]

/-! ## Speed bounds of one poll -/

/-- C2, as the claim states it, fails at both bounds: right after `moveTo(10)` the enabled
controller has `isMoving` true at speed 0, below the floor of 50; and with `setMaxSpeed(40)`,
three polls into `moveRelative(1)` the deceleration branch has raised the speed to the floor
of 50, above `maxSpeed`. -/
theorem speed_bounds_fail_while_moving :
    ((moveTo 10 (enable fresh)).isMoving = true ∧ (moveTo 10 (enable fresh)).currentSpeed = 0 ∧
      (moveTo 10 (enable fresh)).currentSpeed < 50) ∧
    (slowBraking.isMoving = true ∧ slowBraking.maxSpeed = 40 ∧ slowBraking.currentSpeed = 50 ∧
      slowBraking.maxSpeed < slowBraking.currentSpeed) := by
  decide!

/-- C2, amended. A poll of `run()` on an enabled, moving controller with a non-zero distance
(the poll that executes the speed law) leaves the speed at least 50 when it takes the
deceleration branch and at most `maxSpeed` when it takes the acceleration branch; and when
`maxSpeed` is at least 50 it keeps the speed at most `maxSpeed` if it was so before and the
deceleration is not negative, and at least 50 if it was so before and the acceleration is not
negative. -/
theorem run_speed_bounds (now : Nat) (s : State) (hen : s.isEnabled = true)
    (hmv : s.isMoving = true) (hd : getDistanceToGo s ≠ 0) :
    (absLong (getDistanceToGo s) ≤ stepsToDecelerate s → 50 ≤ (run now s).currentSpeed) ∧
    (¬ absLong (getDistanceToGo s) ≤ stepsToDecelerate s →
      (run now s).currentSpeed ≤ s.maxSpeed) ∧
    (50 ≤ s.maxSpeed → 0 ≤ s.deceleration → s.currentSpeed ≤ s.maxSpeed →
      (run now s).currentSpeed ≤ s.maxSpeed) ∧
    (50 ≤ s.maxSpeed → 0 ≤ s.acceleration → 50 ≤ s.currentSpeed →
      50 ≤ (run now s).currentSpeed) := by
  rw [run_currentSpeed_of_active now s hen hmv hd]
  have hnn : (0 : ℚ) ≤ (s.stepInterval : ℚ) / 1000000 := by positivity
  refine ⟨?_, ?_, ?_, ?_⟩
  · intro hb
    simp only [calculateSpeed, if_pos hb]
    exact le_max_right _ _
  · intro hb
    simp only [calculateSpeed, if_neg hb]
    exact min_le_right _ _
  · intro hmax hdec hle
    by_cases hb : absLong (getDistanceToGo s) ≤ stepsToDecelerate s
    · simp only [calculateSpeed, if_pos hb]
      have := mul_nonneg hdec hnn
      exact max_le (by linarith) hmax
    · simp only [calculateSpeed, if_neg hb]
      exact min_le_right _ _
  · intro hmax hacc hle
    by_cases hb : absLong (getDistanceToGo s) ≤ stepsToDecelerate s
    · simp only [calculateSpeed, if_pos hb]
      exact le_max_right _ _
    · simp only [calculateSpeed, if_neg hb]
      have := mul_nonneg hacc hnn
      exact le_min (by linarith) hmax

/-- C2, amended, at the third poll of `moveRelative(400)` on the enabled controller `fresh`: the poll takes the deceleration branch and leaves a speed of at least 50. -/
theorem run_speed_bounds_witness :
    ((run 20 (run 10 (moveRelative 400 (enable fresh)))).isEnabled = true ∧
      (run 20 (run 10 (moveRelative 400 (enable fresh)))).isMoving = true ∧
      getDistanceToGo (run 20 (run 10 (moveRelative 400 (enable fresh)))) ≠ 0 ∧
      absLong (getDistanceToGo (run 20 (run 10 (moveRelative 400 (enable fresh)))))
        ≤ stepsToDecelerate (run 20 (run 10 (moveRelative 400 (enable fresh))))) ∧
    50 ≤ (run 30 (run 20 (run 10 (moveRelative 400 (enable fresh))))).currentSpeed :=
  ⟨by decide!,
   (run_speed_bounds 30 (run 20 (run 10 (moveRelative 400 (enable fresh))))
      (by decide!) (by decide!) (by decide!)).1 (by decide!)⟩

/-! ## Properties kept by every poll -/

theorem run_maxSpeed (now : Nat) (s : State) : (run now s).maxSpeed = s.maxSpeed := by
  unfold run
  split
  · rfl
  · dsimp only
    split
    · rfl
    · split <;> simp

theorem run_acceleration (now : Nat) (s : State) :
    (run now s).acceleration = s.acceleration := by
  unfold run
  split
  · rfl
  · dsimp only
    split
    · rfl
    · split <;> simp

theorem run_deceleration (now : Nat) (s : State) :
    (run now s).deceleration = s.deceleration := by
  unfold run
  split
  · rfl
  · dsimp only
    split
    · rfl
    · split <;> simp

theorem run_isEnabled (now : Nat) (s : State) : (run now s).isEnabled = s.isEnabled := by
  unfold run
  split
  · rfl
  · dsimp only
    split
    · rfl
    · split <;> simp

/-- A property of the state that every poll keeps holds after any number of polls. -/
theorem pollN_keeps (P : State → Prop) (hrun : ∀ (now : Nat) (s : State), P s → P (run now s))
    (dt n t : Nat) (s : State) (h : P s) : P (pollN dt n t s) := by
  induction n generalizing t s with
  | zero => exact h
  | succ n ih => exact ih _ _ (hrun _ _ h)

/-- With `maxSpeed` at least 50 and a deceleration that is not negative, a poll keeps the
speed at most `maxSpeed`. -/
theorem run_currentSpeed_le_maxSpeed (now : Nat) (s : State) (hmax : 50 ≤ s.maxSpeed)
    (hdec : 0 ≤ s.deceleration) (hle : s.currentSpeed ≤ s.maxSpeed) :
    (run now s).currentSpeed ≤ s.maxSpeed := by
  by_cases hidle : s.isEnabled = false ∨ s.isMoving = false
  · rw [run_of_idle now s hidle]; exact hle
  have hen : s.isEnabled = true := by
    cases hE : s.isEnabled
    · exact absurd (Or.inl hE) hidle
    · rfl
  have hmv : s.isMoving = true := by
    cases hM : s.isMoving
    · exact absurd (Or.inr hM) hidle
    · rfl
  by_cases hd : getDistanceToGo s = 0
  · rw [run_of_arrived now s hen hmv hd]
    show (0 : ℚ) ≤ s.maxSpeed
    linarith
  rw [run_currentSpeed_of_active now s hen hmv hd]
  have hnn : (0 : ℚ) ≤ (s.stepInterval : ℚ) / 1000000 := by positivity
  by_cases hb : absLong (getDistanceToGo s) ≤ stepsToDecelerate s
  · simp only [calculateSpeed, if_pos hb]
    have := mul_nonneg hdec hnn
    exact max_le (by linarith) hmax
  · simp only [calculateSpeed, if_neg hb]
    exact min_le_right _ _

/-! ## The speed trace of the scenario -/

/-- C6, as the claim states it, fails: polled every 10 microseconds, the scenario has speed
1000 after poll 2, the lower speed 1257753/2000 after poll 607 and the higher speed
1259343/2000 after poll 608, while the move is still running (position 4 of 400).  A
sequence with such a valley is not single-peaked. -/
theorem scenario_speed_trace_has_valley :
    (pollN 10 2 0 scenario).currentSpeed = 1000 ∧
    (pollN 10 607 0 scenario).currentSpeed = 1257753 / 2000 ∧
    (pollN 10 608 0 scenario).currentSpeed = 1259343 / 2000 ∧
    (pollN 10 607 0 scenario).currentSpeed < (pollN 10 2 0 scenario).currentSpeed ∧
    (pollN 10 607 0 scenario).currentSpeed < (pollN 10 608 0 scenario).currentSpeed ∧
    isRunning (pollN 10 608 0 scenario) = true ∧
    (pollN 10 608 0 scenario).currentPosition = 4 := by
  decide!

/-- C6, amended. In the scenario polled every 10 microseconds the speed observed after each
poll never exceeds 1000. -/
theorem scenario_speed_never_exceeds_max (n : Nat) :
    (pollN 10 n 0 scenario).currentSpeed ≤ 1000 := by
  have key := pollN_keeps
    (fun s => s.maxSpeed = 1000 ∧ s.deceleration = 500 ∧ s.currentSpeed ≤ 1000)
    (fun now s h => by
      obtain ⟨h1, h2, h3⟩ := h
      refine ⟨by rw [run_maxSpeed, h1], by rw [run_deceleration, h2], ?_⟩
      have := run_currentSpeed_le_maxSpeed now s (by rw [h1]; norm_num) (by rw [h2]; norm_num)
        (by rw [h1]; exact h3)
      rw [h1] at this
      exact this)
    10 n 0 scenario ⟨rfl, rfl, by decide!⟩
  exact key.2.2

/-! ## Arrival of a relative move -/

theorem calculateSpeed_stepInterval (s : State) :
    (calculateSpeed s).stepInterval = toULong (1000000 / (calculateSpeed s).currentSpeed) := by
  unfold calculateSpeed; dsimp only

theorem calculateSpeed_low (low : ℚ) (s : State) (h : MoveInv low s) :
    low ≤ (calculateSpeed s).currentSpeed := by
  by_cases hb : absLong (getDistanceToGo s) ≤ stepsToDecelerate s
  · simp only [calculateSpeed, if_pos hb]
    exact le_trans h.lowFloor (le_max_right _ _)
  · simp only [calculateSpeed, if_neg hb]
    exact le_min h.speed h.lowMax

theorem calculateSpeed_moveInv (low : ℚ) (s : State) (h : MoveInv low s) :
    MoveInv low (calculateSpeed s) where
  en := by simpa using h.en
  mv := by simpa using h.mv
  acc := by simpa using h.acc
  lowMax := by simpa using h.lowMax
  lowFloor := h.lowFloor
  speed := by
    have h1 := calculateSpeed_low low s h
    have h2 : (0 : ℚ) ≤ ((calculateSpeed s).stepInterval : ℚ) / 1000000 := by positivity
    have h3 := mul_nonneg h.acc h2
    rw [calculateSpeed_acceleration]
    linarith
  last := by simpa using h.last

theorem getDistanceToGo_step (s : State) :
    (0 < getDistanceToGo s → getDistanceToGo (step s) = getDistanceToGo s - 1) ∧
    (getDistanceToGo s < 0 → getDistanceToGo (step s) = getDistanceToGo s + 1) := by
  constructor
  · intro h
    have := (step_currentPosition_pos s h).1
    simp only [getDistanceToGo, this, step_targetPosition]; ring
  · intro h
    have := (step_currentPosition_neg s (not_lt.mpr h.le)).1
    simp only [getDistanceToGo, this, step_targetPosition]; ring

/-- One poll of a move in progress: the invariant is kept, the new step interval is within
the bound `B`, and either the poll was due and the distance shrinks by one step, or it was
not due and nothing moves. -/
theorem run_moveInv (low : ℚ) (B now : Nat) (s : State)
    (hB : ∀ v : ℚ, low ≤ v → toULong (1000000 / v) ≤ B)
    (h : MoveInv low s) (hd : getDistanceToGo s ≠ 0) (hnow : now < ULONG_MOD) :
    MoveInv low (run now s) ∧
    (run now s).targetPosition = s.targetPosition ∧
    (run now s).stepInterval ≤ B ∧
    (((run now s).stepInterval ≤ elapsed now s ∧ (run now s).lastStepTime = now ∧
        (0 < getDistanceToGo s → getDistanceToGo (run now s) = getDistanceToGo s - 1) ∧
        (getDistanceToGo s < 0 → getDistanceToGo (run now s) = getDistanceToGo s + 1)) ∨
     (elapsed now s < (run now s).stepInterval ∧ (run now s).lastStepTime = s.lastStepTime ∧
        getDistanceToGo (run now s) = getDistanceToGo s)) := by
  have hc := calculateSpeed_moveInv low s h
  have hsi : (calculateSpeed s).stepInterval ≤ B := by
    rw [calculateSpeed_stepInterval]
    exact hB _ (calculateSpeed_low low s h)
  have hrun := run_of_active now s h.en h.mv hd
  by_cases hdue : (now + ULONG_MOD - (calculateSpeed s).lastStepTime) % ULONG_MOD
      ≥ (calculateSpeed s).stepInterval
  · rw [if_pos hdue] at hrun
    rw [hrun]
    refine ⟨?_, by simp, by simpa using hsi, Or.inl ⟨?_, rfl, ?_, ?_⟩⟩
    · exact
        { en := by simpa using h.en
          mv := by simpa using h.mv
          acc := by simpa using h.acc
          lowMax := by simpa using h.lowMax
          lowFloor := h.lowFloor
          speed := by simpa using hc.speed
          last := hnow }
    · simpa [elapsed] using hdue
    · intro hpos
      have := (getDistanceToGo_step (calculateSpeed s)).1 (by simpa using hpos)
      simpa [getDistanceToGo] using this
    · intro hneg
      have := (getDistanceToGo_step (calculateSpeed s)).2 (by simpa using hneg)
      simpa [getDistanceToGo] using this
  · rw [if_neg hdue] at hrun
    rw [hrun]
    refine ⟨hc, by simp, hsi, Or.inr ⟨?_, by simp, by simp⟩⟩
    simpa [elapsed] using hdue

theorem between_self (d : Int) : Between d d := by
  unfold Between; omega

theorem between_trans (d x y : Int) (h1 : Between d x) (h2 : Between x y) : Between d y := by
  unfold Between at *; omega

theorem elapsed_next (t dt : Nat) (s : State) (hlast : s.lastStepTime < ULONG_MOD) :
    elapsed ((t + dt) % ULONG_MOD) s = (elapsed t s + dt) % ULONG_MOD := by
  unfold elapsed ULONG_MOD at *
  omega

theorem elapsed_self (now : Nat) (s : State) (h : s.lastStepTime = now) :
    elapsed now s = 0 := by
  unfold elapsed ULONG_MOD at *
  rw [h]
  omega

theorem pollN_succ (dt n t : Nat) (s : State) :
    pollN dt (n + 1) t s = pollN dt n ((t + dt) % ULONG_MOD) (run ((t + dt) % ULONG_MOD) s) :=
  rfl

/-- The rank of a move in progress drops with every poll that leaves a distance to go. -/
theorem pollRank_run_lt (low : ℚ) (B dt t : Nat) (s : State)
    (hB : ∀ v : ℚ, low ≤ v → toULong (1000000 / v) ≤ B) (hdt : 0 < dt)
    (hwrap : B + dt < ULONG_MOD) (h : MoveInv low s) (hd : getDistanceToGo s ≠ 0) :
    pollRank B ((t + dt) % ULONG_MOD) (run ((t + dt) % ULONG_MOD) s) < pollRank B t s := by
  have hnow : (t + dt) % ULONG_MOD < ULONG_MOD := Nat.mod_lt _ (by unfold ULONG_MOD; norm_num)
  obtain ⟨hK, -, hsi, hcase⟩ := run_moveInv low B _ s hB h hd hnow
  have hnext := elapsed_next t dt s h.last
  obtain ⟨N, hN⟩ : ∃ N, (getDistanceToGo s).natAbs = N + 1 :=
    Nat.exists_eq_succ_of_ne_zero (by simpa using hd)
  unfold pollRank
  rcases hcase with ⟨-, hlast, hpos, hneg⟩ | ⟨hlt, hlast, hsame⟩
  · have he := elapsed_self _ _ hlast
    have hN1 : (getDistanceToGo (run ((t + dt) % ULONG_MOD) s)).natAbs = N := by
      rcases lt_or_gt_of_ne hd with hlt | hgt
      · have := hneg hlt; omega
      · have := hpos hgt; omega
    rw [he, hN1, hN, Nat.succ_mul]
    split_ifs <;> omega
  · have he : elapsed ((t + dt) % ULONG_MOD) (run ((t + dt) % ULONG_MOD) s)
        = elapsed ((t + dt) % ULONG_MOD) s := by
      unfold elapsed; rw [hlast]
    rw [he, hsame]
    have hle : elapsed ((t + dt) % ULONG_MOD) s ≤ B := by omega
    rw [if_pos hle]
    by_cases hold : elapsed t s ≤ B
    · rw [if_pos hold]
      have hmod : (elapsed t s + dt) % ULONG_MOD = elapsed t s + dt :=
        Nat.mod_eq_of_lt (by omega)
      rw [hnext, hmod] at hle ⊢
      omega
    · rw [if_neg hold]
      omega

/-- A move in progress arrives: after some number of polls the distance to go is zero, the
controller having been running at every poll before, with the distance always between its
first value and zero. -/
theorem pollN_arrives (low : ℚ) (B dt : Nat)
    (hB : ∀ v : ℚ, low ≤ v → toULong (1000000 / v) ≤ B) (hdt : 0 < dt)
    (hwrap : B + dt < ULONG_MOD) :
    ∀ (r : Nat) (s : State) (t : Nat), MoveInv low s → getDistanceToGo s ≠ 0 →
      pollRank B t s ≤ r →
      ∃ n, getDistanceToGo (pollN dt n t s) = 0 ∧
        (pollN dt n t s).targetPosition = s.targetPosition ∧
        (∀ k, k < n → isRunning (pollN dt k t s) = true) ∧
        (∀ k, k ≤ n → Between (getDistanceToGo s) (getDistanceToGo (pollN dt k t s))) := by
  intro r
  induction r with
  | zero =>
    intro s t h hd hr
    exfalso
    have h1 : 0 < (getDistanceToGo s).natAbs := Int.natAbs_pos.mpr hd
    have h2 := Nat.mul_le_mul_right (B + 1) h1
    unfold pollRank at hr
    omega
  | succ r ih =>
    intro s t h hd hr
    have hnow : (t + dt) % ULONG_MOD < ULONG_MOD :=
      Nat.mod_lt _ (by unfold ULONG_MOD; norm_num)
    obtain ⟨hK, htg, -, hcase⟩ := run_moveInv low B _ s hB h hd hnow
    have hlt := pollRank_run_lt low B dt t s hB hdt hwrap h hd
    have hrunning : isRunning s = true := by simp [isRunning, h.mv, hd]
    have hbetween : Between (getDistanceToGo s)
        (getDistanceToGo (run ((t + dt) % ULONG_MOD) s)) := by
      unfold Between
      rcases hcase with ⟨-, -, hpos, hneg⟩ | ⟨-, -, hsame⟩
      · rcases lt_or_gt_of_ne hd with h0 | h0
        · have := hneg h0; omega
        · have := hpos h0; omega
      · omega
    by_cases hz : getDistanceToGo (run ((t + dt) % ULONG_MOD) s) = 0
    · refine ⟨1, hz, htg, ?_, ?_⟩
      · intro k hk
        have : k = 0 := by omega
        subst this
        exact hrunning
      · intro k hk
        rcases Nat.le_one_iff_eq_zero_or_eq_one.mp hk with h0 | h1
        · subst h0; exact between_self _
        · subst h1; exact hbetween
    · obtain ⟨n, h1, h2, h3, h4⟩ := ih _ ((t + dt) % ULONG_MOD) hK hz (by omega)
      refine ⟨n + 1, ?_, ?_, ?_, ?_⟩
      · rw [pollN_succ]; exact h1
      · rw [pollN_succ, h2, htg]
      · intro k hk
        cases k with
        | zero => exact hrunning
        | succ k => rw [pollN_succ]; exact h3 k (by omega)
      · intro k hk
        cases k with
        | zero => exact between_self _
        | succ k =>
          rw [pollN_succ]
          exact between_trans _ _ _ hbetween (h4 k (by omega))

/-- With speeds of at least `low`, a positive speed whose step interval fits the clock, the
conversion of the step interval does not wrap and stays within the interval of `low`. -/
theorem toULong_interval_le (low : ℚ) (hlow : 0 < low) (hfit : 1000000 / low < 4294967296)
    (v : ℚ) (hv : low ≤ v) : toULong (1000000 / v) ≤ ⌊1000000 / low⌋.toNat := by
  have hvpos : 0 < v := lt_of_lt_of_le hlow hv
  have hx : (0 : ℚ) ≤ 1000000 / v := by positivity
  have hxy : 1000000 / v ≤ 1000000 / low :=
    div_le_div_of_nonneg_left (by norm_num) hlow hv
  have h1 : toLong (1000000 / v) = ⌊1000000 / v⌋ := by
    rw [toLong_eq_truncTowardZero, truncTowardZero, if_pos hx]
  have h2 : (0 : Int) ≤ ⌊1000000 / v⌋ := Int.floor_nonneg.mpr hx
  have h3 : ⌊1000000 / v⌋ ≤ ⌊1000000 / low⌋ := Int.floor_mono hxy
  have h4 : ⌊1000000 / low⌋ < 4294967296 := by
    have : ((⌊1000000 / low⌋ : Int) : ℚ) < ((4294967296 : Int) : ℚ) := by
      have := Int.floor_le (1000000 / low)
      push_cast
      linarith
    exact_mod_cast this
  unfold toULong ULONG_MOD
  rw [h1]
  omega

theorem pollN_targetPosition (dt n t : Nat) (s : State) :
    (pollN dt n t s).targetPosition = s.targetPosition :=
  pollN_keeps (fun x => x.targetPosition = s.targetPosition)
    (fun now x h => (run_targetPosition now x).trans h) dt n t s rfl

/-- The state of `stalled` after its first poll is a fixed point of the polls at the clock
readings 0 and `2 ^ 31`. -/
theorem stalled_loop (n t : Nat) (ht : t = 0 ∨ t = 2147483648) :
    pollN 2147483648 n t (run 2147483648 stalled) = run 2147483648 stalled := by
  induction n generalizing t with
  | zero => rfl
  | succ n ih =>
    rw [pollN_succ]
    rcases ht with ht | ht
    · subst ht
      have hc : (0 + 2147483648) % ULONG_MOD = 2147483648 := by decide
      have hr : run 2147483648 (run 2147483648 stalled) = run 2147483648 stalled := by decide!
      rw [hc, hr]
      exact ih _ (Or.inr rfl)
    · subst ht
      have hc : (2147483648 + 2147483648) % ULONG_MOD = 0 := by decide
      have hr : run 0 (run 2147483648 stalled) = run 2147483648 stalled := by decide!
      rw [hc, hr]
      exact ih _ (Or.inl rfl)

/-- C1, as the claim states it, fails: with `maxSpeed` 1/3000 steps per second (positive,
as are the default acceleration and deceleration of 500) the step interval is 3,000,000,000
microseconds; polled every `2 ^ 31` microseconds after `moveRelative(1)`, the 32-bit elapsed
time is `2 ^ 31` and 0 in turn, never reaches the interval, and the controller runs for
ever without a step. -/
theorem stalled_never_arrives :
    (stalled.isEnabled = true ∧ 0 < stalled.maxSpeed ∧ 0 < stalled.acceleration ∧
      0 < stalled.deceleration ∧ (run 2147483648 stalled).stepInterval = 3000000000) ∧
    ¬ ∃ n, isRunning (pollN 2147483648 n 0 stalled) = false := by
  refine ⟨by decide!, ?_⟩
  rintro ⟨n, hn⟩
  cases n with
  | zero =>
    revert hn
    decide!
  | succ n =>
    rw [pollN_succ] at hn
    have hc : (0 + 2147483648) % ULONG_MOD = 2147483648 := by decide
    rw [hc, stalled_loop n _ (Or.inr rfl)] at hn
    revert hn
    decide!

/-- C1, amended. For every enabled controller with positive `maxSpeed`, acceleration and
deceleration, whose speed cannot fall to a step interval that, with the poll period `dt`
added, reaches the wrap of the 32-bit clock (the least speed `lowSpeed` of the move is
positive and `1000000 / lowSpeed + dt < 2 ^ 32`), and for every `d ≠ 0`: after
`moveRelative(d)`, the polls of `run()` with the clock advancing by `dt > 0` per poll reach a
poll after which `isRunning()` is false, having been true until then; at that point the
position is the target, the old position plus `d`, and at every poll up to it the position
lay between the old position and the target. -/
theorem moveRelative_arrives (s : State) (d : Int) (t dt : Nat)
    (hen : s.isEnabled = true) (hmax : 0 < s.maxSpeed) (hacc : 0 < s.acceleration)
    (hdec : 0 < s.deceleration) (hd : d ≠ 0) (hdt : 0 < dt)
    (hlast : s.lastStepTime < ULONG_MOD) (hlow : 0 < lowSpeed s)
    (hwrap : 1000000 / lowSpeed s + (dt : ℚ) < 4294967296) :
    ∃ n, isRunning (pollN dt n t (moveRelative d s)) = false ∧
      (pollN dt n t (moveRelative d s)).currentPosition = s.currentPosition + d ∧
      (pollN dt n t (moveRelative d s)).targetPosition = s.currentPosition + d ∧
      (∀ k, k < n → isRunning (pollN dt k t (moveRelative d s)) = true) ∧
      (∀ k, k ≤ n →
        Between d (s.currentPosition + d - (pollN dt k t (moveRelative d s)).currentPosition)) := by
  have hdtq : (0 : ℚ) ≤ (dt : ℚ) := Nat.cast_nonneg dt
  have hfit : 1000000 / lowSpeed s < 4294967296 := by linarith
  have hB := toULong_interval_le (lowSpeed s) hlow hfit
  have hBwrap : ⌊1000000 / lowSpeed s⌋.toNat + dt < ULONG_MOD := by
    have h0 : (0 : Int) ≤ ⌊1000000 / lowSpeed s⌋ := Int.floor_nonneg.mpr (by positivity)
    have h1 : ⌊1000000 / lowSpeed s⌋ + (dt : Int) < 4294967296 := by
      have : ((⌊1000000 / lowSpeed s⌋ + (dt : Int) : Int) : ℚ) < ((4294967296 : Int) : ℚ) := by
        have := Int.floor_le (1000000 / lowSpeed s)
        push_cast
        linarith
      exact_mod_cast this
    unfold ULONG_MOD
    omega
  have hinv : MoveInv (lowSpeed s) (moveRelative d s) :=
    { en := hen
      mv := rfl
      acc := hacc.le
      lowMax := le_trans (min_le_left _ _) (min_le_right _ _)
      lowFloor := min_le_right _ _
      speed := le_trans (min_le_left _ _) (min_le_left _ _)
      last := hlast }
  have hdist : getDistanceToGo (moveRelative d s) = d := by
    simp [getDistanceToGo, moveRelative]
  obtain ⟨n, h1, -, h3, h4⟩ := pollN_arrives (lowSpeed s) _ dt hB hdt hBwrap _
    (moveRelative d s) t hinv (by rw [hdist]; exact hd) le_rfl
  have htg : ∀ k, (pollN dt k t (moveRelative d s)).targetPosition = s.currentPosition + d :=
    fun k => by rw [pollN_targetPosition]; rfl
  refine ⟨n, by simp [isRunning, h1], ?_, htg n, h3, ?_⟩
  · have := htg n
    unfold getDistanceToGo at h1
    omega
  · intro k hk
    have := h4 k hk
    rw [hdist] at this
    unfold getDistanceToGo at this
    rw [htg k] at this
    exact this

/-- C1, amended, at the scenario of the specification: from position 0 with `maxSpeed` 1000, acceleration and deceleration 500, `moveRelative(400)` polled every 10 microseconds ends at position 400 with `isRunning()` false. -/
theorem moveRelative_arrives_witness :
    ((enable fresh).isEnabled = true ∧ 0 < (enable fresh).maxSpeed ∧
      0 < (enable fresh).acceleration ∧ 0 < (enable fresh).deceleration ∧ (400 : Int) ≠ 0 ∧
      0 < 10 ∧ (enable fresh).lastStepTime < ULONG_MOD ∧ 0 < lowSpeed (enable fresh) ∧
      1000000 / lowSpeed (enable fresh) + ((10 : Nat) : ℚ) < 4294967296) ∧
    ∃ n, isRunning (pollN 10 n 0 (moveRelative 400 (enable fresh))) = false ∧
      (pollN 10 n 0 (moveRelative 400 (enable fresh))).currentPosition
        = (enable fresh).currentPosition + 400 ∧
      (pollN 10 n 0 (moveRelative 400 (enable fresh))).targetPosition
        = (enable fresh).currentPosition + 400 ∧
      (∀ k, k < n → isRunning (pollN 10 k 0 (moveRelative 400 (enable fresh))) = true) ∧
      (∀ k, k ≤ n →
        Between 400 ((enable fresh).currentPosition + 400
          - (pollN 10 k 0 (moveRelative 400 (enable fresh))).currentPosition)) :=
  ⟨by decide!,
   moveRelative_arrives (enable fresh) 400 0 10 (by decide!) (by decide!) (by decide!)
     (by decide!) (by decide!) (by decide!) (by decide!) (by decide!) (by decide!)⟩

/-! ## The guards of `run` -/

theorem runAll_of_disabled (clocks : List Nat) (s : State) (h : s.isEnabled = false) :
    runAll clocks s = s := by
  induction clocks with
  | nil => rfl
  | cons now rest ih => simp only [runAll]; rw [run_of_idle now s (Or.inl h)]; exact ih

/-- C11. When the controller is disabled or `isMoving` is false, `run()` returns the state
unchanged, whatever the clock reading, and so emits no pulse.  A move command on a disabled
controller is stored (the target is set and `isMoving` is true), and any number of polls
leaves the state, the position in it, as the command left it. -/
theorem run_gated_by_enabled_and_moving :
    (∀ (now : Nat) (s : State), s.isEnabled = false ∨ s.isMoving = false →
      run now s = s ∧ (run now s).pulses = s.pulses) ∧
    (∀ (clocks : List Nat) (position steps : Int) (s : State), s.isEnabled = false →
      (moveTo position s).targetPosition = position ∧
      (moveTo position s).isMoving = true ∧
      runAll clocks (moveTo position s) = moveTo position s ∧
      (runAll clocks (moveTo position s)).currentPosition = s.currentPosition ∧
      (runAll clocks (moveTo position s)).pulses = s.pulses ∧
      (moveRelative steps s).targetPosition = s.currentPosition + steps ∧
      (moveRelative steps s).isMoving = true ∧
      runAll clocks (moveRelative steps s) = moveRelative steps s ∧
      (runAll clocks (moveRelative steps s)).currentPosition = s.currentPosition ∧
      (runAll clocks (moveRelative steps s)).pulses = s.pulses) := by
  constructor
  · intro now s h
    rw [run_of_idle now s h]
    exact ⟨rfl, rfl⟩
  · intro clocks position steps s h
    have h1 : runAll clocks (moveTo position s) = moveTo position s :=
      runAll_of_disabled clocks _ (by simpa [moveTo] using h)
    have h2 : runAll clocks (moveRelative steps s) = moveRelative steps s :=
      runAll_of_disabled clocks _ (by simpa [moveRelative] using h)
    rw [h1, h2]
    simp [moveTo, moveRelative]

/-- C11 at the constructed controller `fresh`, which is disabled: `moveTo(400)` is stored and
three polls leave the position at 0. -/
theorem run_gated_by_enabled_and_moving_witness :
    fresh.isEnabled = false ∧
    (moveTo 400 fresh).targetPosition = 400 ∧
    (moveTo 400 fresh).isMoving = true ∧
    (runAll [10, 5000000, 4000000000] (moveTo 400 fresh)).currentPosition
      = fresh.currentPosition :=
  ⟨rfl,
   (run_gated_by_enabled_and_moving.2 [10, 5000000, 4000000000] 400 0 fresh rfl).1,
   (run_gated_by_enabled_and_moving.2 [10, 5000000, 4000000000] 400 0 fresh rfl).2.1,
   (run_gated_by_enabled_and_moving.2 [10, 5000000, 4000000000] 400 0 fresh rfl).2.2.2.1⟩

/-! ## The timing gate -/

/-- C12. On an enabled, moving controller with a non-zero distance, `run()` emits a step
exactly when the elapsed time `now - lastStepTime` is at least the step interval that the
speed law has just recomputed.  When it does, it emits one pulse, moves the position by
exactly 1 and sets `lastStepTime` to `now`; when it does not, the position and
`lastStepTime` are unchanged and there is no pulse.  So no poll emits more than one step. -/
theorem run_steps_iff_interval_elapsed (now : Nat) (s : State) (hen : s.isEnabled = true)
    (hmv : s.isMoving = true) (hd : getDistanceToGo s ≠ 0) :
    ((run now s).pulses ≠ s.pulses ↔ (calculateSpeed s).stepInterval ≤ elapsed now s) ∧
    (run now s).stepInterval = (calculateSpeed s).stepInterval ∧
    ((calculateSpeed s).stepInterval ≤ elapsed now s →
      (run now s).pulses = s.pulses + 1 ∧
      |(run now s).currentPosition - s.currentPosition| = 1 ∧
      (run now s).lastStepTime = now) ∧
    (¬ (calculateSpeed s).stepInterval ≤ elapsed now s →
      (run now s).pulses = s.pulses ∧
      (run now s).currentPosition = s.currentPosition ∧
      (run now s).lastStepTime = s.lastStepTime) ∧
    (run now s).pulses ≤ s.pulses + 1 := by
  have hrun := run_of_active now s hen hmv hd
  have hel : elapsed now s
      = (now + ULONG_MOD - (calculateSpeed s).lastStepTime) % ULONG_MOD := by
    simp [elapsed]
  by_cases hdue : (calculateSpeed s).stepInterval ≤ elapsed now s
  · have hdue2 := hdue
    rw [hel] at hdue2
    rw [if_pos hdue2] at hrun
    have hpos : |(run now s).currentPosition - s.currentPosition| = 1 := by
      rw [hrun]
      rcases lt_or_gt_of_ne hd with h | h
      · have := (step_currentPosition_neg (calculateSpeed s)
          (by simpa using not_lt.mpr h.le)).1
        simp only [this, calculateSpeed_currentPosition]
        norm_num
      · have := (step_currentPosition_pos (calculateSpeed s) (by simpa using h)).1
        simp only [this, calculateSpeed_currentPosition]
        norm_num
    have hpl : (run now s).pulses = s.pulses + 1 := by rw [hrun]; simp
    refine ⟨⟨fun _ => hdue, fun _ => by rw [hpl]; omega⟩, by rw [hrun]; simp,
      fun _ => ⟨hpl, hpos, by rw [hrun]⟩, fun hn => absurd hdue hn, by rw [hpl]⟩
  · have hdue2 := hdue
    rw [hel] at hdue2
    rw [if_neg hdue2] at hrun
    have hpl : (run now s).pulses = s.pulses := by rw [hrun]; simp
    refine ⟨⟨fun hne => absurd hpl hne, fun h => absurd h hdue⟩, by rw [hrun],
      fun h => absurd h hdue, fun _ => ⟨hpl, by rw [hrun]; simp, by rw [hrun]; simp⟩,
      by rw [hpl]; omega⟩

/-- C12 at the scenario of the specification and the clock reading 10: the elapsed time of
10 microseconds is below the recomputed interval of 2,000,000, and the poll emits
nothing. -/
theorem run_steps_iff_interval_elapsed_witness :
    (scenario.isEnabled = true ∧ scenario.isMoving = true ∧ getDistanceToGo scenario ≠ 0 ∧
      ¬ (calculateSpeed scenario).stepInterval ≤ elapsed 10 scenario) ∧
    ((run 10 scenario).pulses = scenario.pulses ∧
      (run 10 scenario).currentPosition = scenario.currentPosition ∧
      (run 10 scenario).lastStepTime = scenario.lastStepTime) :=
  ⟨by decide!,
   (run_steps_iff_interval_elapsed 10 scenario (by decide!) (by decide!) (by decide!)).2.2.2.1
     (by decide!)⟩

/-- C13. The timing gate tolerates the wrap of the 32-bit clock: when `lastStepTime` is a
32-bit value, the true elapsed time `e` is below `2 ^ 32` and the clock reads
`(lastStepTime + e) mod 2 ^ 32`, the `unsigned long` difference that `run()` computes is
`e`; so on an enabled, moving controller with a non-zero distance `run()` emits a step
exactly when `e` is at least the recomputed step interval, also when the clock reading is
numerically below `lastStepTime`. -/
theorem elapsed_tolerates_wraparound (s : State) (e : Nat)
    (hlast : s.lastStepTime < ULONG_MOD) (he : e < ULONG_MOD) :
    elapsed ((s.lastStepTime + e) % ULONG_MOD) s = e ∧
    (s.isEnabled = true → s.isMoving = true → getDistanceToGo s ≠ 0 →
      ((run ((s.lastStepTime + e) % ULONG_MOD) s).pulses = s.pulses + 1
        ↔ (calculateSpeed s).stepInterval ≤ e)) := by
  have hel : elapsed ((s.lastStepTime + e) % ULONG_MOD) s = e := by
    unfold elapsed ULONG_MOD at *
    omega
  refine ⟨hel, ?_⟩
  intro hen hmv hd
  have hrun := run_of_active ((s.lastStepTime + e) % ULONG_MOD) s hen hmv hd
  have hel2 : (((s.lastStepTime + e) % ULONG_MOD) + ULONG_MOD
      - (calculateSpeed s).lastStepTime) % ULONG_MOD = e := by
    rw [calculateSpeed_lastStepTime]; exact hel
  rw [hel2] at hrun
  by_cases hdue : (calculateSpeed s).stepInterval ≤ e
  · rw [if_pos hdue] at hrun
    rw [hrun]
    simp [hdue]
  · rw [if_neg hdue] at hrun
    rw [hrun]
    simp [hdue]

/-- C13 at the state `nearWrap`, whose `lastStepTime` is `2 ^ 32 - 5`, and an elapsed time
of 1000 microseconds: the clock reads 995, below `lastStepTime`, the computed difference is
1000, and the poll emits a step, the recomputed interval being 1000. -/
theorem elapsed_tolerates_wraparound_witness :
    (nearWrap.lastStepTime < ULONG_MOD ∧ 1000 < ULONG_MOD ∧
      (nearWrap.lastStepTime + 1000) % ULONG_MOD = 995 ∧ 995 < nearWrap.lastStepTime ∧
      nearWrap.isEnabled = true ∧ nearWrap.isMoving = true ∧ getDistanceToGo nearWrap ≠ 0 ∧
      (calculateSpeed nearWrap).stepInterval ≤ 1000) ∧
    elapsed ((nearWrap.lastStepTime + 1000) % ULONG_MOD) nearWrap = 1000 ∧
    (run ((nearWrap.lastStepTime + 1000) % ULONG_MOD) nearWrap).pulses
      = nearWrap.pulses + 1 :=
  ⟨by decide!,
   (elapsed_tolerates_wraparound nearWrap 1000 (by decide!) (by decide!)).1,
   ((elapsed_tolerates_wraparound nearWrap 1000 (by decide!) (by decide!)).2
      (by decide!) (by decide!) (by decide!)).2 (by decide!)⟩

/-! ## The step interval and the speed -/

/-- The conversion to `unsigned long` of a value in its range is the floor. -/
theorem toULong_of_inrange (x : ℚ) (h0 : 0 ≤ x) (h1 : x < 4294967296) :
    ((toULong x : Nat) : Int) = ⌊x⌋ := by
  have h2 : toLong x = ⌊x⌋ := by
    rw [toLong_eq_truncTowardZero, truncTowardZero, if_pos h0]
  have h3 : (0 : Int) ≤ ⌊x⌋ := Int.floor_nonneg.mpr h0
  have h4 : ⌊x⌋ < 4294967296 := by
    have : ((⌊x⌋ : Int) : ℚ) < ((4294967296 : Int) : ℚ) := by
      have := Int.floor_le x
      push_cast
      linarith
    exact_mod_cast this
  unfold toULong ULONG_MOD
  rw [h2]
  omega

/-- C14, as the claim states it, fails at construction: the constructed controller has
speed 0 and step interval 1000, which is not the converted quotient of the model (0), and
is no truncated quotient `1000000 / currentSpeed` in any reading, since
`stepInterval * currentSpeed ≤ 1000000 < (stepInterval + 1) * currentSpeed` fails. -/
theorem stepInterval_at_construction :
    fresh.currentSpeed = 0 ∧ fresh.stepInterval = 1000 ∧
    fresh.stepInterval ≠ toULong (1000000 / fresh.currentSpeed) ∧
    ¬ ((fresh.stepInterval : ℚ) * fresh.currentSpeed ≤ 1000000 ∧
        (1000000 : ℚ) < ((fresh.stepInterval : ℚ) + 1) * fresh.currentSpeed) := by
  decide!

/-- C14, amended. After every poll of `run()` that executes the speed law (the controller
enabled and moving, the distance not zero) the step interval is `1000000 / currentSpeed`
converted to `unsigned long`, which is the floor of the quotient when the speed is positive
and the quotient below `2 ^ 32`.  The commands `stop`, `disable`, `enable`, `moveTo` and
`moveRelative`, and the polls that do not execute the speed law, leave the step interval
as it was. -/
theorem stepInterval_after_speed_law :
    (∀ (now : Nat) (s : State), s.isEnabled = true → s.isMoving = true →
      getDistanceToGo s ≠ 0 →
      (run now s).stepInterval = toULong (1000000 / (run now s).currentSpeed) ∧
      (0 < (run now s).currentSpeed → 1000000 / (run now s).currentSpeed < 4294967296 →
        (((run now s).stepInterval : Nat) : Int) = ⌊1000000 / (run now s).currentSpeed⌋)) ∧
    (∀ (now : Nat) (s : State),
      (s.isEnabled = false ∨ s.isMoving = false ∨ getDistanceToGo s = 0) →
      (run now s).stepInterval = s.stepInterval) ∧
    (∀ (position : Int) (s : State),
      (stop s).stepInterval = s.stepInterval ∧ (disable s).stepInterval = s.stepInterval ∧
      (enable s).stepInterval = s.stepInterval ∧
      (moveTo position s).stepInterval = s.stepInterval ∧
      (moveRelative position s).stepInterval = s.stepInterval) := by
  refine ⟨?_, ?_, fun _ _ => ⟨rfl, rfl, rfl, rfl, rfl⟩⟩
  · intro now s hen hmv hd
    have hsp := run_currentSpeed_of_active now s hen hmv hd
    have hsi : (run now s).stepInterval = (calculateSpeed s).stepInterval := by
      rw [run_of_active now s hen hmv hd]; split <;> simp
    have heq : (run now s).stepInterval = toULong (1000000 / (run now s).currentSpeed) := by
      rw [hsi, hsp, calculateSpeed_stepInterval]
    refine ⟨heq, fun hpos hfit => ?_⟩
    rw [heq]
    exact toULong_of_inrange _ (by positivity) hfit
  · intro now s h
    by_cases hidle : s.isEnabled = false ∨ s.isMoving = false
    · rw [run_of_idle now s hidle]
    · have hen : s.isEnabled = true := by
        cases hE : s.isEnabled
        · exact absurd (Or.inl hE) hidle
        · rfl
      have hmv : s.isMoving = true := by
        cases hM : s.isMoving
        · exact absurd (Or.inr hM) hidle
        · rfl
      have hd : getDistanceToGo s = 0 := by
        rcases h with h | h | h
        · exact absurd (Or.inl h) hidle
        · exact absurd (Or.inr h) hidle
        · exact h
      rw [run_of_arrived now s hen hmv hd]

/-- C14, amended, at the first poll of the scenario: the speed is 1/2 and the step interval
2,000,000. -/
theorem stepInterval_after_speed_law_witness :
    (scenario.isEnabled = true ∧ scenario.isMoving = true ∧ getDistanceToGo scenario ≠ 0 ∧
      (run 10 scenario).currentSpeed = 1 / 2) ∧
    (run 10 scenario).stepInterval = toULong (1000000 / (run 10 scenario).currentSpeed) ∧
    (((run 10 scenario).stepInterval : Nat) : Int)
      = ⌊1000000 / (run 10 scenario).currentSpeed⌋ :=
  ⟨by decide!,
   (stepInterval_after_speed_law.1 10 scenario (by decide!) (by decide!) (by decide!)).1,
   (stepInterval_after_speed_law.1 10 scenario (by decide!) (by decide!) (by decide!)).2
     (by decide!) (by decide!)⟩

/-! ## Home, disable and the first polls of a move -/

/-- C16. `setHome()` sets the position to 0 and changes no other field, the pulse count
among them; `goHome()` gives exactly the state that `moveTo(0)` gives. -/
theorem setHome_goHome (s : State) :
    setHome s = { s with currentPosition := 0 } ∧
    (setHome s).currentPosition = 0 ∧
    (setHome s).pulses = s.pulses ∧
    (setHome s).targetPosition = s.targetPosition ∧
    (setHome s).isMoving = s.isMoving ∧
    (setHome s).isEnabled = s.isEnabled ∧
    (setHome s).currentSpeed = s.currentSpeed ∧
    (setHome s).stepInterval = s.stepInterval ∧
    (setHome s).lastStepTime = s.lastStepTime ∧
    (setHome s).clockwise = s.clockwise ∧
    (setHome s).maxSpeed = s.maxSpeed ∧
    (setHome s).acceleration = s.acceleration ∧
    (setHome s).deceleration = s.deceleration ∧
    goHome s = moveTo 0 s ∧
    (goHome s).targetPosition = 0 ∧
    (goHome s).isMoving = true := by
  simp [setHome, goHome, setCurrentPosition, moveTo]

/-- C19. `disable()` clears `isEnabled` and `isMoving`, zeroes the speed and leaves the target
and the position unchanged; so after `disable()` and `enable()` every poll of `run()` is a
no-op and `isRunning()` is false, whatever the distance to go, which is the distance before
`disable()`. -/
theorem disable_cancels_move (s : State) (clocks : List Nat) (now : Nat) :
    (disable s).isEnabled = false ∧
    (disable s).isMoving = false ∧
    (disable s).currentSpeed = 0 ∧
    (disable s).targetPosition = s.targetPosition ∧
    (disable s).currentPosition = s.currentPosition ∧
    (enable (disable s)).isEnabled = true ∧
    run now (enable (disable s)) = enable (disable s) ∧
    runAll clocks (enable (disable s)) = enable (disable s) ∧
    isRunning (enable (disable s)) = false ∧
    isRunning (runAll clocks (enable (disable s))) = false ∧
    getDistanceToGo (runAll clocks (enable (disable s))) = getDistanceToGo s := by
  have h1 : run now (enable (disable s)) = enable (disable s) :=
    run_of_idle now _ (Or.inr rfl)
  have h2 : runAll clocks (enable (disable s)) = enable (disable s) :=
    runAll_of_not_moving clocks _ rfl
  rw [h1, h2]
  simp [enable, disable, isRunning, getDistanceToGo]

/-- The speed and the step interval after a poll that takes the acceleration branch. -/
theorem run_of_accelerating (now : Nat) (s : State) (hen : s.isEnabled = true)
    (hmv : s.isMoving = true) (hd : getDistanceToGo s ≠ 0)
    (hb : ¬ absLong (getDistanceToGo s) ≤ stepsToDecelerate s) :
    (run now s).currentSpeed
      = min (s.currentSpeed + s.acceleration * ((s.stepInterval : ℚ) / 1000000)) s.maxSpeed ∧
    (run now s).stepInterval
      = toULong (1000000 /
          min (s.currentSpeed + s.acceleration * ((s.stepInterval : ℚ) / 1000000))
            s.maxSpeed) := by
  have h1 : (calculateSpeed s).currentSpeed
      = min (s.currentSpeed + s.acceleration * ((s.stepInterval : ℚ) / 1000000))
          s.maxSpeed := by
    simp only [calculateSpeed, if_neg hb]
  have hsi : (run now s).stepInterval = (calculateSpeed s).stepInterval := by
    rw [run_of_active now s hen hmv hd]; split <;> simp
  refine ⟨by rw [run_currentSpeed_of_active now s hen hmv hd, h1], ?_⟩
  rw [hsi, calculateSpeed_stepInterval, h1]

theorem absLong_eq_abs (x : Int) : absLong x = |x| := by
  unfold absLong
  split
  · rename_i h; exact (abs_of_pos h).symm
  · rename_i h; exact (abs_of_nonpos (not_lt.mp h)).symm

theorem run_isMoving_of_active (now : Nat) (s : State) (hen : s.isEnabled = true)
    (hmv : s.isMoving = true) (hd : getDistanceToGo s ≠ 0) :
    (run now s).isMoving = true := by
  rw [run_of_active now s hen hmv hd]; split <;> simp [hmv]

/-- A poll that executes the speed law leaves the distance as it was or one step nearer to
zero. -/
theorem getDistanceToGo_run_of_active (now : Nat) (s : State) (hen : s.isEnabled = true)
    (hmv : s.isMoving = true) (hd : getDistanceToGo s ≠ 0) :
    getDistanceToGo (run now s) = getDistanceToGo s ∨
    (0 < getDistanceToGo s ∧ getDistanceToGo (run now s) = getDistanceToGo s - 1) ∨
    (getDistanceToGo s < 0 ∧ getDistanceToGo (run now s) = getDistanceToGo s + 1) := by
  rw [run_of_active now s hen hmv hd]
  split
  · rcases lt_or_gt_of_ne hd with h | h
    · right; right
      have := (getDistanceToGo_step (calculateSpeed s)).2 (by simpa using h)
      exact ⟨h, by simpa [getDistanceToGo] using this⟩
    · right; left
      have := (getDistanceToGo_step (calculateSpeed s)).1 (by simpa using h)
      exact ⟨h, by simpa [getDistanceToGo] using this⟩
  · left; simp

/-- C20. On a freshly constructed and enabled controller (default configuration: `maxSpeed`
1000, acceleration and deceleration 500, step interval 1000, speed 0), for every `d` with
`|d| ≥ 2` and whatever the two clock readings: after `moveRelative(d)` the first poll of
`run()` leaves the speed 1/2 and the step interval 2,000,000, and the second poll leaves
the speed 1000, which is `maxSpeed`, and the step interval 1000. -/
theorem first_two_polls_from_rest (stepPin dirPin enablePin : Int) (motorType : MotorType)
    (stepMode : StepMode) (stepsPerRevolution d : Int) (now1 now2 : Nat) (hd : 2 ≤ |d|) :
    (run now1 (moveRelative d (enable
      (construct stepPin dirPin enablePin motorType stepMode stepsPerRevolution)))).currentSpeed
        = 1 / 2 ∧
    (run now1 (moveRelative d (enable
      (construct stepPin dirPin enablePin motorType stepMode stepsPerRevolution)))).stepInterval
        = 2000000 ∧
    (run now2 (run now1 (moveRelative d (enable
      (construct stepPin dirPin enablePin motorType stepMode
        stepsPerRevolution))))).currentSpeed = 1000 ∧
    (run now2 (run now1 (moveRelative d (enable
      (construct stepPin dirPin enablePin motorType stepMode
        stepsPerRevolution))))).currentSpeed
      = (construct stepPin dirPin enablePin motorType stepMode stepsPerRevolution).maxSpeed ∧
    (run now2 (run now1 (moveRelative d (enable
      (construct stepPin dirPin enablePin motorType stepMode
        stepsPerRevolution))))).stepInterval = 1000 := by
  generalize hs0 : moveRelative d (enable
    (construct stepPin dirPin enablePin motorType stepMode stepsPerRevolution)) = s0
  have hen0 : s0.isEnabled = true := by rw [← hs0]; rfl
  have hmv0 : s0.isMoving = true := by rw [← hs0]; rfl
  have hdist0 : getDistanceToGo s0 = d := by
    rw [← hs0]; simp [getDistanceToGo, moveRelative, enable, construct]
  have hcs0 : s0.currentSpeed = 0 := by rw [← hs0]; rfl
  have hsi0 : s0.stepInterval = 1000 := by rw [← hs0]; rfl
  have hacc0 : s0.acceleration = 500 := by rw [← hs0]; rfl
  have hdec0 : s0.deceleration = 500 := by rw [← hs0]; rfl
  have hmax0 : s0.maxSpeed = 1000 := by rw [← hs0]; rfl
  have hd0 : getDistanceToGo s0 ≠ 0 := by
    rw [hdist0]; intro h; rw [h] at hd; norm_num at hd
  have hz0 : toLong 0 = 0 := by decide!
  have hb0 : ¬ absLong (getDistanceToGo s0) ≤ stepsToDecelerate s0 := by
    have : stepsToDecelerate s0 = 0 := by
      simp only [stepsToDecelerate, hcs0, hdec0]
      norm_num
      exact hz0
    rw [this, hdist0, absLong_eq_abs]
    omega
  obtain ⟨hcs1, hsi1⟩ := run_of_accelerating now1 s0 hen0 hmv0 hd0 hb0
  rw [hcs0, hsi0, hacc0, hmax0] at hcs1 hsi1
  have hv1 : min ((0 : ℚ) + 500 * (((1000 : Nat) : ℚ) / 1000000)) 1000 = 1 / 2 := by
    norm_num
  rw [hv1] at hcs1 hsi1
  have hu1 : toULong (1000000 / (1 / 2)) = 2000000 := by decide!
  rw [hu1] at hsi1
  have hen1 : (run now1 s0).isEnabled = true := by rw [run_isEnabled]; exact hen0
  have hmv1 := run_isMoving_of_active now1 s0 hen0 hmv0 hd0
  have hd1 : getDistanceToGo (run now1 s0) ≠ 0 := by
    rcases getDistanceToGo_run_of_active now1 s0 hen0 hmv0 hd0 with h | ⟨hp, h⟩ | ⟨hn, h⟩
    · rw [h]; exact hd0
    · rw [h, hdist0]; rw [hdist0] at hp; rw [abs_of_pos hp] at hd; omega
    · rw [h, hdist0]; rw [hdist0] at hn; rw [abs_of_neg hn] at hd; omega
  have hz1 : toLong ((1 / 2 : ℚ) * (1 / 2) / (2 * 500)) = 0 := by decide!
  have hb1 : ¬ absLong (getDistanceToGo (run now1 s0)) ≤ stepsToDecelerate (run now1 s0) := by
    have : stepsToDecelerate (run now1 s0) = 0 := by
      simp only [stepsToDecelerate, hcs1, run_deceleration, hdec0]
      exact hz1
    rw [this, absLong_eq_abs]
    have := abs_pos.mpr hd1
    omega
  obtain ⟨hcs2, hsi2⟩ := run_of_accelerating now2 (run now1 s0) hen1 hmv1 hd1 hb1
  rw [hcs1, hsi1, run_acceleration, run_maxSpeed, hacc0, hmax0] at hcs2 hsi2
  have hv2 : min ((1 / 2 : ℚ) + 500 * (((2000000 : Nat) : ℚ) / 1000000)) 1000 = 1000 := by
    norm_num
  rw [hv2] at hcs2 hsi2
  have hu2 : toULong (1000000 / 1000) = 1000 := by decide!
  rw [hu2] at hsi2
  exact ⟨hcs1, hsi1, hcs2, hcs2, hsi2⟩

/-- C20 at the controller `fresh`, `moveRelative(400)` and the clock readings 10 and 20. -/
theorem first_two_polls_from_rest_witness :
    (2 : Int) ≤ |400| ∧
    (run 10 (moveRelative 400 (enable
      (construct 2 3 4 MotorType.MOTOR_NEMA17 StepMode.FULL_STEP 200)))).currentSpeed
        = 1 / 2 ∧
    (run 20 (run 10 (moveRelative 400 (enable
      (construct 2 3 4 MotorType.MOTOR_NEMA17 StepMode.FULL_STEP 200))))).stepInterval
        = 1000 :=
  ⟨by decide,
   (first_two_polls_from_rest 2 3 4 MotorType.MOTOR_NEMA17 StepMode.FULL_STEP 200 400 10 20
      (by decide)).1,
   (first_two_polls_from_rest 2 3 4 MotorType.MOTOR_NEMA17 StepMode.FULL_STEP 200 400 10 20
      (by decide)).2.2.2.2⟩

/-! ## The coded speed law and the specified one -/

/-- With a non-negative speed and a positive deceleration, the integer comparison of
`calculateSpeed` is the comparison with the braking distance over the rationals. -/
theorem braking_branch_iff (s : State) (hdec : 0 < s.deceleration) :
    absLong (getDistanceToGo s) ≤ stepsToDecelerate s ↔
      ((|getDistanceToGo s| : Int) : ℚ) ≤ s.currentSpeed ^ 2 / (2 * s.deceleration) := by
  have hx : (0 : ℚ) ≤ s.currentSpeed * s.currentSpeed / (2 * s.deceleration) :=
    div_nonneg (mul_self_nonneg _) (by linarith)
  have h1 : stepsToDecelerate s = ⌊s.currentSpeed * s.currentSpeed / (2 * s.deceleration)⌋ := by
    unfold stepsToDecelerate
    rw [toLong_eq_truncTowardZero, truncTowardZero, if_pos hx]
  rw [absLong_eq_abs, h1, Int.le_floor, pow_two]

/-- C17. The coded speed law is the specified trapezoidal law.  For every state with a
non-zero distance, a non-negative speed and a positive deceleration: the comparison of the
absolute distance with the braking distance truncated to an integer selects the deceleration
branch exactly when the absolute distance is at most `currentSpeed² / (2 · deceleration)`
over the rationals; in that branch the new speed is
`max (currentSpeed - deceleration · Δ) 50`, otherwise
`min (currentSpeed + acceleration · Δ) maxSpeed`, with `Δ` the stored step interval over
`1e6`; and the step interval is then `1e6 / newSpeed` truncated by the conversion to
`unsigned long`, which is the quotient rounded toward zero whenever that is a 32-bit
unsigned value. -/
theorem calculateSpeed_eq_specSpeedLaw (s : State) (hd : getDistanceToGo s ≠ 0)
    (hcs : 0 ≤ s.currentSpeed) (hdec : 0 < s.deceleration) :
    (absLong (getDistanceToGo s) ≤ stepsToDecelerate s ↔
      ((|getDistanceToGo s| : Int) : ℚ) ≤ s.currentSpeed ^ 2 / (2 * s.deceleration)) ∧
    (((|getDistanceToGo s| : Int) : ℚ) ≤ s.currentSpeed ^ 2 / (2 * s.deceleration) →
      (calculateSpeed s).currentSpeed
        = max (s.currentSpeed - s.deceleration * ((s.stepInterval : ℚ) / 1000000)) 50) ∧
    (¬ ((|getDistanceToGo s| : Int) : ℚ) ≤ s.currentSpeed ^ 2 / (2 * s.deceleration) →
      (calculateSpeed s).currentSpeed
        = min (s.currentSpeed + s.acceleration * ((s.stepInterval : ℚ) / 1000000))
            s.maxSpeed) ∧
    (calculateSpeed s).currentSpeed = (specSpeedLaw s).1 ∧
    (calculateSpeed s).stepInterval = toULong (1000000 / (specSpeedLaw s).1) ∧
    (((calculateSpeed s).stepInterval : Nat) : Int) = (specSpeedLaw s).2 % 4294967296 ∧
    (0 ≤ (specSpeedLaw s).2 → (specSpeedLaw s).2 < 4294967296 →
      (((calculateSpeed s).stepInterval : Nat) : Int) = (specSpeedLaw s).2) := by
  have hiff := braking_branch_iff s hdec
  have hdecel : ((|getDistanceToGo s| : Int) : ℚ) ≤ s.currentSpeed ^ 2 / (2 * s.deceleration) →
      (calculateSpeed s).currentSpeed
        = max (s.currentSpeed - s.deceleration * ((s.stepInterval : ℚ) / 1000000)) 50 := by
    intro h
    simp only [calculateSpeed, if_pos (hiff.mpr h)]
  have haccel : ¬ ((|getDistanceToGo s| : Int) : ℚ) ≤ s.currentSpeed ^ 2 / (2 * s.deceleration) →
      (calculateSpeed s).currentSpeed
        = min (s.currentSpeed + s.acceleration * ((s.stepInterval : ℚ) / 1000000))
            s.maxSpeed := by
    intro h
    simp only [calculateSpeed, if_neg (fun hc => h (hiff.mp hc))]
  have hspeed : (calculateSpeed s).currentSpeed = (specSpeedLaw s).1 := by
    by_cases h : ((|getDistanceToGo s| : Int) : ℚ) ≤ s.currentSpeed ^ 2 / (2 * s.deceleration)
    · rw [hdecel h]; simp only [specSpeedLaw, if_pos h]
    · rw [haccel h]; simp only [specSpeedLaw, if_neg h]
  have hsi : (calculateSpeed s).stepInterval = toULong (1000000 / (specSpeedLaw s).1) := by
    rw [calculateSpeed_stepInterval, hspeed]
  have h2 : (specSpeedLaw s).2 = toLong (1000000 / (specSpeedLaw s).1) := by
    rw [toLong_eq_truncTowardZero]; rfl
  have hmod : (((calculateSpeed s).stepInterval : Nat) : Int)
      = (specSpeedLaw s).2 % 4294967296 := by
    rw [hsi, h2]
    unfold toULong ULONG_MOD
    omega
  refine ⟨hiff, hdecel, haccel, hspeed, hsi, hmod, fun h0 h1 => ?_⟩
  rw [hmod]
  omega

/-- C17 at the state of the scenario after two polls (speed 1000, distance 400, braking
distance 1000): the deceleration branch is taken and the new speed is 1999/2. -/
theorem calculateSpeed_eq_specSpeedLaw_witness :
    (getDistanceToGo (run 20 (run 10 scenario)) ≠ 0 ∧
      (0 : ℚ) ≤ (run 20 (run 10 scenario)).currentSpeed ∧
      (0 : ℚ) < (run 20 (run 10 scenario)).deceleration) ∧
    (calculateSpeed (run 20 (run 10 scenario))).currentSpeed
      = (specSpeedLaw (run 20 (run 10 scenario))).1 ∧
    (((calculateSpeed (run 20 (run 10 scenario))).stepInterval : Nat) : Int)
      = (specSpeedLaw (run 20 (run 10 scenario))).2 % 4294967296 :=
  ⟨by decide!,
   (calculateSpeed_eq_specSpeedLaw (run 20 (run 10 scenario))
      (by decide!) (by decide!) (by decide!)).2.2.2.1,
   (calculateSpeed_eq_specSpeedLaw (run 20 (run 10 scenario))
      (by decide!) (by decide!) (by decide!)).2.2.2.2.2.1⟩

/-! ## Speed bounds over the reachable states -/

/-- With a speed, an acceleration and a `maxSpeed` that are not negative, a poll leaves a
speed that is not negative. -/
theorem run_currentSpeed_nonneg (now : Nat) (s : State) (hcs : 0 ≤ s.currentSpeed)
    (hacc : 0 ≤ s.acceleration) (hmax : 0 ≤ s.maxSpeed) : 0 ≤ (run now s).currentSpeed := by
  by_cases hidle : s.isEnabled = false ∨ s.isMoving = false
  · rw [run_of_idle now s hidle]; exact hcs
  have hen : s.isEnabled = true := by
    cases hE : s.isEnabled
    · exact absurd (Or.inl hE) hidle
    · rfl
  have hmv : s.isMoving = true := by
    cases hM : s.isMoving
    · exact absurd (Or.inr hM) hidle
    · rfl
  by_cases hd : getDistanceToGo s = 0
  · rw [run_of_arrived now s hen hmv hd]
  rw [run_currentSpeed_of_active now s hen hmv hd]
  have hnn : (0 : ℚ) ≤ (s.stepInterval : ℚ) / 1000000 := by positivity
  by_cases hb : absLong (getDistanceToGo s) ≤ stepsToDecelerate s
  · simp only [calculateSpeed, if_pos hb]
    exact le_trans (by norm_num) (le_max_right _ _)
  · simp only [calculateSpeed, if_neg hb]
    have := mul_nonneg hacc hnn
    exact le_min (by linarith) hmax

/-- In every reachable state the speed is not negative, and the acceleration and `maxSpeed`
are positive. -/
theorem reachable_nonneg (s : State) (h : Reachable s) :
    0 ≤ s.currentSpeed ∧ 0 < s.acceleration ∧ 0 < s.maxSpeed := by
  induction h with
  | byConstruct => exact ⟨le_refl _, by norm_num [construct], by norm_num [construct]⟩
  | bySetMaxSpeed v s hv _ ih => exact ⟨ih.1, ih.2.1, hv⟩
  | bySetAcceleration v s hv _ ih => exact ⟨ih.1, hv, ih.2.2⟩
  | bySetDeceleration v s _ _ ih => exact ih
  | byEnable s _ ih => exact ih
  | byDisable s _ ih => exact ⟨le_refl _, ih.2.1, ih.2.2⟩
  | byMoveTo p s _ ih => exact ih
  | byMoveRelative p s _ ih => exact ih
  | byRotate p s _ ih => exact ih
  | byRotateRevolutions p s _ ih => exact ih
  | byStop s _ ih => exact ⟨le_refl _, ih.2.1, ih.2.2⟩
  | byRun now s _ ih =>
    refine ⟨run_currentSpeed_nonneg now s ih.1 ih.2.1.le ih.2.2.le, ?_, ?_⟩
    · rw [run_acceleration]; exact ih.2.1
    · rw [run_maxSpeed]; exact ih.2.2

/-- From a state with `0 ≤ currentSpeed ≤ maxSpeed`, `maxSpeed` at least 50 and a
deceleration that is not negative, every state reached with the configuration fixed keeps
the configuration and the bound `currentSpeed ≤ maxSpeed`. -/
theorem reachableFrom_le_maxSpeed (s0 s : State) (hmax : 50 ≤ s0.maxSpeed)
    (hdec : 0 ≤ s0.deceleration) (hle : s0.currentSpeed ≤ s0.maxSpeed)
    (h : ReachableFrom s0 s) :
    s.maxSpeed = s0.maxSpeed ∧ s.deceleration = s0.deceleration ∧
      s.currentSpeed ≤ s.maxSpeed := by
  induction h with
  | start => exact ⟨rfl, rfl, hle⟩
  | byEnable s _ ih => exact ih
  | byDisable s _ ih =>
    refine ⟨ih.1, ih.2.1, ?_⟩
    show (0 : ℚ) ≤ s.maxSpeed
    rw [ih.1]; linarith
  | byMoveTo p s _ ih => exact ih
  | byMoveRelative p s _ ih => exact ih
  | byRotate p s _ ih => exact ih
  | byRotateRevolutions p s _ ih => exact ih
  | byStop s _ ih =>
    refine ⟨ih.1, ih.2.1, ?_⟩
    show (0 : ℚ) ≤ s.maxSpeed
    rw [ih.1]; linarith
  | byRun now s _ ih =>
    refine ⟨by rw [run_maxSpeed]; exact ih.1, by rw [run_deceleration]; exact ih.2.1, ?_⟩
    rw [run_maxSpeed]
    exact run_currentSpeed_le_maxSpeed now s (by rw [ih.1]; exact hmax)
      (by rw [ih.2.1]; exact hdec) ih.2.2

/-- C15, as the claim states it, fails at the upper bound.  With `setMaxSpeed(40)`, a
positive value, three polls into `moveRelative(1)` the deceleration branch has raised the
speed to the floor of 50, above `maxSpeed`; and `setMaxSpeed(100)` called at speed 1000
during a move leaves the speed above the new `maxSpeed`.  Both states are reachable. -/
theorem speed_above_maxSpeed_reachable :
    (Reachable slowBraking ∧ slowBraking.maxSpeed = 40 ∧ slowBraking.currentSpeed = 50 ∧
      ¬ (0 ≤ slowBraking.currentSpeed ∧ slowBraking.currentSpeed ≤ slowBraking.maxSpeed)) ∧
    (Reachable loweredMax ∧ loweredMax.maxSpeed = 100 ∧ loweredMax.currentSpeed = 1000 ∧
      ¬ (0 ≤ loweredMax.currentSpeed ∧ loweredMax.currentSpeed ≤ loweredMax.maxSpeed)) := by
  refine ⟨⟨?_, by decide!, by decide!, by decide!⟩, ⟨?_, by decide!, by decide!, by decide!⟩⟩
  · exact Reachable.byRun 30 _ (Reachable.byRun 20 _ (Reachable.byRun 10 _
      (Reachable.byMoveRelative 1 _ (Reachable.byEnable _
        (Reachable.bySetMaxSpeed 40 _ (by norm_num)
          (Reachable.byConstruct 2 3 4 .MOTOR_NEMA17 .FULL_STEP 200))))))
  · exact Reachable.bySetMaxSpeed 100 _ (by norm_num)
      (Reachable.byRun 20 _ (Reachable.byRun 10 _
        (Reachable.byMoveRelative 400 _ (Reachable.byEnable _
          (Reachable.byConstruct 2 3 4 .MOTOR_NEMA17 .FULL_STEP 200)))))

/-- C15, amended. In every state reachable from construction through the configuration
setters called with positive values, `enable`, `disable`, the move commands, `stop` and
`run()`, the speed is not negative.  The bound `currentSpeed ≤ maxSpeed` holds in every
state reached through `enable`, `disable`, the move commands, `stop` and `run()`, with no
configuration setter called on the way, from a state with `currentSpeed ≤ maxSpeed`,
`maxSpeed` at least 50 and a deceleration that is not negative. -/
theorem speed_bounds_over_reachable :
    (∀ s : State, Reachable s → 0 ≤ s.currentSpeed) ∧
    (∀ s0 s : State, 50 ≤ s0.maxSpeed → 0 ≤ s0.deceleration →
      s0.currentSpeed ≤ s0.maxSpeed → ReachableFrom s0 s →
      s.currentSpeed ≤ s.maxSpeed ∧ s.maxSpeed = s0.maxSpeed) := by
  refine ⟨fun s h => (reachable_nonneg s h).1, ?_⟩
  intro s0 s hmax hdec hle h
  have := reachableFrom_le_maxSpeed s0 s hmax hdec hle h
  exact ⟨this.2.2, this.1⟩

/-- C15, amended, at the constructed controller `fresh` (speed 0, `maxSpeed` 1000,
deceleration 500) and the state of the scenario after two polls. -/
theorem speed_bounds_over_reachable_witness :
    ((50 : ℚ) ≤ fresh.maxSpeed ∧ (0 : ℚ) ≤ fresh.deceleration ∧
      fresh.currentSpeed ≤ fresh.maxSpeed ∧ ReachableFrom fresh (run 20 (run 10 scenario))) ∧
    (run 20 (run 10 scenario)).currentSpeed ≤ (run 20 (run 10 scenario)).maxSpeed ∧
    0 ≤ (run 20 (run 10 scenario)).currentSpeed :=
  ⟨⟨by decide!, by decide!, by decide!,
      ReachableFrom.byRun 20 _ (ReachableFrom.byRun 10 _
        (ReachableFrom.byMoveRelative 400 _ (ReachableFrom.byEnable _ ReachableFrom.start)))⟩,
   (speed_bounds_over_reachable.2 fresh (run 20 (run 10 scenario)) (by decide!) (by decide!)
      (by decide!)
      (ReachableFrom.byRun 20 _ (ReachableFrom.byRun 10 _
        (ReachableFrom.byMoveRelative 400 _
          (ReachableFrom.byEnable _ ReachableFrom.start))))).1,
   speed_bounds_over_reachable.1 (run 20 (run 10 scenario))
     (Reachable.byRun 20 _ (Reachable.byRun 10 _
       (Reachable.byMoveRelative 400 _ (Reachable.byEnable _
         (Reachable.byConstruct 2 3 4 .MOTOR_NEMA17 .FULL_STEP 200)))))⟩

/-! ## The division guard -/

theorem minInterval_pos (m : ℚ) (hm : 0 < m) (hm1 : m ≤ 1000000) : 1 ≤ minInterval m := by
  have hM : (0 : ℚ) < max m 50 := lt_of_lt_of_le hm (le_max_left _ _)
  have hM1 : max m 50 ≤ 1000000 := max_le hm1 (by norm_num)
  have h1 : (1 : ℚ) ≤ 1000000 / max m 50 := by
    rw [le_div_iff₀ hM]; linarith
  have h2 : (1 : Int) ≤ ⌊1000000 / max m 50⌋ := Int.le_floor.mpr (by exact_mod_cast h1)
  unfold minInterval
  omega

theorem guardSpeed_pos (m a : ℚ) (hm : 0 < m) (hm1 : m ≤ 1000000) (ha : 0 < a) :
    0 < guardSpeed m a := by
  have hk := minInterval_pos m hm hm1
  have hkq : (0 : ℚ) < (minInterval m : ℚ) := by exact_mod_cast hk
  unfold guardSpeed
  exact lt_min (by positivity) hm

/-- Under the invariant, the speed law leaves a speed between the guard speed (or the floor)
and the highest speed, and a step interval of at least the shortest one. -/
theorem calculateSpeed_guard (m a d : ℚ) (s : State) (hm : 0 < m) (hm1 : m ≤ 1000000)
    (ha : 0 < a) (hd : 0 < d) (hfit : 1000000 / guardSpeed m a < 4294967296)
    (h : GuardInv m a d s) :
    0 < (calculateSpeed s).currentSpeed ∧ (calculateSpeed s).currentSpeed ≤ max m 50 ∧
      minInterval m ≤ (calculateSpeed s).stepInterval := by
  have hg := guardSpeed_pos m a hm hm1 ha
  have hM : (0 : ℚ) < max m 50 := lt_of_lt_of_le hm (le_max_left _ _)
  have hnn : (0 : ℚ) ≤ (s.stepInterval : ℚ) / 1000000 := by positivity
  have hkle : ((minInterval m : ℚ)) / 1000000 ≤ (s.stepInterval : ℚ) / 1000000 := by
    have : (minInterval m : ℚ) ≤ (s.stepInterval : ℚ) := by exact_mod_cast h.interval
    exact div_le_div_of_nonneg_right this (by norm_num)
  have hlow : min (guardSpeed m a) 50 ≤ (calculateSpeed s).currentSpeed := by
    by_cases hb : absLong (getDistanceToGo s) ≤ stepsToDecelerate s
    · simp only [calculateSpeed, if_pos hb]
      exact le_trans (min_le_right _ _) (le_max_right _ _)
    · simp only [calculateSpeed, if_neg hb]
      refine le_trans (min_le_left _ _) ?_
      unfold guardSpeed
      rw [h.acceleration, h.maxSpeed]
      have h1 : a * ((minInterval m : ℚ) / 1000000) ≤ a * ((s.stepInterval : ℚ) / 1000000) :=
        mul_le_mul_of_nonneg_left hkle ha.le
      exact min_le_min (by linarith [h.speedNonneg]) le_rfl
  have hup : (calculateSpeed s).currentSpeed ≤ max m 50 := by
    by_cases hb : absLong (getDistanceToGo s) ≤ stepsToDecelerate s
    · simp only [calculateSpeed, if_pos hb]
      rw [h.deceleration]
      have := mul_nonneg hd.le hnn
      exact max_le (by linarith [h.speedLe]) (le_max_right _ _)
    · simp only [calculateSpeed, if_neg hb]
      rw [h.maxSpeed]
      exact le_trans (min_le_right _ _) (le_max_left _ _)
  have hlowpos : (0 : ℚ) < min (guardSpeed m a) 50 := lt_min hg (by norm_num)
  have hpos : 0 < (calculateSpeed s).currentSpeed := lt_of_lt_of_le hlowpos hlow
  have hq : 1000000 / (calculateSpeed s).currentSpeed < 4294967296 := by
    have h1 : 1000000 / (calculateSpeed s).currentSpeed ≤ 1000000 / min (guardSpeed m a) 50 :=
      div_le_div_of_nonneg_left (by norm_num) hlowpos hlow
    have h2 : 1000000 / min (guardSpeed m a) 50 < 4294967296 := by
      rcases min_choice (guardSpeed m a) 50 with hc | hc
      · rw [hc]; exact hfit
      · rw [hc]; norm_num
    linarith
  have hsi := toULong_of_inrange (1000000 / (calculateSpeed s).currentSpeed)
    (by positivity) hq
  rw [← calculateSpeed_stepInterval] at hsi
  have hfl : ⌊1000000 / max m 50⌋ ≤ ⌊1000000 / (calculateSpeed s).currentSpeed⌋ :=
    Int.floor_mono (div_le_div_of_nonneg_left (by norm_num) hpos hup)
  refine ⟨hpos, hup, ?_⟩
  unfold minInterval
  omega

theorem run_guardInv (m a d : ℚ) (now : Nat) (s : State) (hm : 0 < m) (hm1 : m ≤ 1000000)
    (ha : 0 < a) (hd : 0 < d) (hfit : 1000000 / guardSpeed m a < 4294967296)
    (h : GuardInv m a d s) : GuardInv m a d (run now s) := by
  have hM : (0 : ℚ) ≤ max m 50 := le_trans (by norm_num) (le_max_right _ _)
  by_cases hidle : s.isEnabled = false ∨ s.isMoving = false
  · rw [run_of_idle now s hidle]; exact h
  have hen : s.isEnabled = true := by
    cases hE : s.isEnabled
    · exact absurd (Or.inl hE) hidle
    · rfl
  have hmv : s.isMoving = true := by
    cases hM : s.isMoving
    · exact absurd (Or.inr hM) hidle
    · rfl
  by_cases hdist : getDistanceToGo s = 0
  · rw [run_of_arrived now s hen hmv hdist]
    exact ⟨h.maxSpeed, h.acceleration, h.deceleration, le_refl _, hM, h.interval⟩
  obtain ⟨h1, h2, h3⟩ := calculateSpeed_guard m a d s hm hm1 ha hd hfit h
  have hsi : (run now s).stepInterval = (calculateSpeed s).stepInterval := by
    rw [run_of_active now s hen hmv hdist]; split <;> simp
  have hcs := run_currentSpeed_of_active now s hen hmv hdist
  exact
    { maxSpeed := by rw [run_maxSpeed]; exact h.maxSpeed
      acceleration := by rw [run_acceleration]; exact h.acceleration
      deceleration := by rw [run_deceleration]; exact h.deceleration
      speedNonneg := by rw [hcs]; exact h1.le
      speedLe := by rw [hcs]; exact h2
      interval := by rw [hsi]; exact h3 }

theorem reachableFrom_guardInv (m a d : ℚ) (s0 s : State) (hm : 0 < m) (hm1 : m ≤ 1000000)
    (ha : 0 < a) (hd : 0 < d) (hfit : 1000000 / guardSpeed m a < 4294967296)
    (h0 : GuardInv m a d s0) (h : ReachableFrom s0 s) : GuardInv m a d s := by
  have hM : (0 : ℚ) ≤ max m 50 := le_trans (by norm_num) (le_max_right _ _)
  induction h with
  | start => exact h0
  | byEnable s _ ih => exact ⟨ih.1, ih.2, ih.3, ih.4, ih.5, ih.6⟩
  | byDisable s _ ih => exact ⟨ih.1, ih.2, ih.3, le_refl _, hM, ih.6⟩
  | byMoveTo p s _ ih => exact ⟨ih.1, ih.2, ih.3, ih.4, ih.5, ih.6⟩
  | byMoveRelative p s _ ih => exact ⟨ih.1, ih.2, ih.3, ih.4, ih.5, ih.6⟩
  | byRotate p s _ ih => exact ⟨ih.1, ih.2, ih.3, ih.4, ih.5, ih.6⟩
  | byRotateRevolutions p s _ ih => exact ⟨ih.1, ih.2, ih.3, ih.4, ih.5, ih.6⟩
  | byStop s _ ih => exact ⟨ih.1, ih.2, ih.3, le_refl _, hM, ih.6⟩
  | byRun now s _ ih => exact run_guardInv m a d now s hm hm1 ha hd hfit ih

/-- C18, as the claim states it, fails in the model when the quotient leaves the range of
`unsigned long`.  With the acceleration 1953125/8388608 (positive; `maxSpeed` 1000 and the
deceleration 500 as constructed), the first poll of `moveRelative(1)` leaves the positive
speed 1953125/8388608000, whose quotient `1000000 / currentSpeed` is exactly `2 ^ 32`; the
conversion, undefined in C for such a value and modular in the model, leaves the step
interval 0, so the next speed update has a time delta of zero. -/
theorem division_guard_fails_on_overflow :
    ((0 : ℚ) < overflowing.maxSpeed ∧ overflowing.maxSpeed ≤ 1000000 ∧
      (0 : ℚ) < overflowing.acceleration ∧ (0 : ℚ) < overflowing.deceleration) ∧
    ReachableFrom (setAcceleration (1953125 / 8388608) fresh) (run 10 overflowing) ∧
    (overflowing.isEnabled = true ∧ overflowing.isMoving = true ∧
      getDistanceToGo overflowing ≠ 0) ∧
    (run 10 overflowing).currentSpeed = 1953125 / 8388608000 ∧
    1000000 / (run 10 overflowing).currentSpeed = 4294967296 ∧
    (run 10 overflowing).stepInterval = 0 ∧
    ¬ 1 ≤ (run 10 overflowing).stepInterval := by
  refine ⟨by decide!, ?_, by decide!, by decide!, by decide!, by decide!, by decide!⟩
  exact ReachableFrom.byRun 10 _ (ReachableFrom.byMoveRelative 1 _
    (ReachableFrom.byEnable _ ReachableFrom.start))

/-- C18, amended. With a fixed configuration satisfying `0 < maxSpeed ≤ 1000000`,
`acceleration > 0` and `deceleration > 0`, and such that the quotient of the least
reachable speed stays in the range of `unsigned long`
(`1000000 / guardSpeed maxSpeed acceleration < 2 ^ 32`), in every state reachable from
construction through `enable`, `disable`, the move commands, `stop` and `run()`: the stored
step interval is at least 1 and the speed is not negative, the speed law ends with a
positive speed and a step interval of at least 1, and so does every poll of `run()` that
executes it. -/
theorem speed_law_division_guard (stepPin dirPin enablePin : Int) (motorType : MotorType)
    (stepMode : StepMode) (stepsPerRevolution : Int) (m a d : ℚ)
    (hm : 0 < m) (hm1 : m ≤ 1000000) (ha : 0 < a) (hd : 0 < d)
    (hfit : 1000000 / guardSpeed m a < 4294967296) (s : State)
    (h : ReachableFrom
      (setDeceleration d (setAcceleration a (setMaxSpeed m
        (construct stepPin dirPin enablePin motorType stepMode stepsPerRevolution)))) s) :
    0 ≤ s.currentSpeed ∧ 1 ≤ s.stepInterval ∧
    0 < (calculateSpeed s).currentSpeed ∧ 1 ≤ (calculateSpeed s).stepInterval ∧
    (s.isEnabled = true → s.isMoving = true → getDistanceToGo s ≠ 0 →
      ∀ now : Nat, 0 < (run now s).currentSpeed ∧ 1 ≤ (run now s).stepInterval) := by
  have hk := minInterval_pos m hm hm1
  have h0 : GuardInv m a d
      (setDeceleration d (setAcceleration a (setMaxSpeed m
        (construct stepPin dirPin enablePin motorType stepMode stepsPerRevolution)))) :=
    { maxSpeed := rfl
      acceleration := rfl
      deceleration := rfl
      speedNonneg := le_refl _
      speedLe := by
        show (0 : ℚ) ≤ max m 50
        exact le_trans (by norm_num) (le_max_right _ _)
      interval := by
        show minInterval m ≤ 1000
        unfold minInterval
        exact min_le_left _ _ }
  have hinv := reachableFrom_guardInv m a d _ s hm hm1 ha hd hfit h0 h
  obtain ⟨h1, -, h3⟩ := calculateSpeed_guard m a d s hm hm1 ha hd hfit hinv
  refine ⟨hinv.speedNonneg, le_trans hk hinv.interval, h1, le_trans hk h3, ?_⟩
  intro hen hmv hdist now
  have hsi : (run now s).stepInterval = (calculateSpeed s).stepInterval := by
    rw [run_of_active now s hen hmv hdist]; split <;> simp
  rw [run_currentSpeed_of_active now s hen hmv hdist, hsi]
  exact ⟨h1, le_trans hk h3⟩

/-- C18, amended, at the default configuration (`maxSpeed` 1000, acceleration and
deceleration 500) and the state of the scenario after one poll. -/
theorem speed_law_division_guard_witness :
    ((0 : ℚ) < 1000 ∧ (1000 : ℚ) ≤ 1000000 ∧ (0 : ℚ) < 500 ∧
      1000000 / guardSpeed 1000 500 < 4294967296 ∧
      ReachableFrom
        (setDeceleration 500 (setAcceleration 500 (setMaxSpeed 1000
          (construct 2 3 4 MotorType.MOTOR_NEMA17 StepMode.FULL_STEP 200))))
        (run 10 (moveRelative 400 (enable
          (setDeceleration 500 (setAcceleration 500 (setMaxSpeed 1000
            (construct 2 3 4 MotorType.MOTOR_NEMA17 StepMode.FULL_STEP 200)))))))) ∧
    0 < (calculateSpeed (run 10 (moveRelative 400 (enable
          (setDeceleration 500 (setAcceleration 500 (setMaxSpeed 1000
            (construct 2 3 4 MotorType.MOTOR_NEMA17 StepMode.FULL_STEP 200)))))))).currentSpeed ∧
    1 ≤ (calculateSpeed (run 10 (moveRelative 400 (enable
          (setDeceleration 500 (setAcceleration 500 (setMaxSpeed 1000
            (construct 2 3 4 MotorType.MOTOR_NEMA17 StepMode.FULL_STEP 200)))))))).stepInterval :=
  ⟨⟨by norm_num, by norm_num, by norm_num, by decide!,
      ReachableFrom.byRun 10 _ (ReachableFrom.byMoveRelative 400 _
        (ReachableFrom.byEnable _ ReachableFrom.start))⟩,
   (speed_law_division_guard 2 3 4 MotorType.MOTOR_NEMA17 StepMode.FULL_STEP 200 1000 500 500
      (by norm_num) (by norm_num) (by norm_num) (by norm_num) (by decide!) _
      (ReachableFrom.byRun 10 _ (ReachableFrom.byMoveRelative 400 _
        (ReachableFrom.byEnable _ ReachableFrom.start)))).2.2.1,
   (speed_law_division_guard 2 3 4 MotorType.MOTOR_NEMA17 StepMode.FULL_STEP 200 1000 500 500
      (by norm_num) (by norm_num) (by norm_num) (by norm_num) (by decide!) _
      (ReachableFrom.byRun 10 _ (ReachableFrom.byMoveRelative 400 _
        (ReachableFrom.byEnable _ ReachableFrom.start)))).2.2.2.1⟩

end StepperControl
